import Mathlib

/-!
Shallow embedding of the web-scraper repository (crawler, structure
detector, record extractor shells, and filter engine) together with
proofs about the embedded functions.

Conventions used throughout:
* Python dictionaries with a fixed key set become Lean structures whose
  fields are `Option String` (`none` models an absent/`None` entry).
* Python `str.lower` is modelled by ASCII case folding (`Char.toLower`);
  the strings handled by the claims are ASCII.
* Python substring tests (`needle in hay`) are modelled by `listInfix`.
* Machine integers do not overflow in any of the modelled code paths;
  prices are parsed from digit strings, so `Int`/`Nat` model them exactly.
-/

namespace Scraper

/-- ASCII lower-casing of a string, modelling Python `str.lower`. -/
def lowerStr (s : String) : String :=
  String.mk (s.toList.map Char.toLower)

/-- Boolean test that `needle` occurs contiguously inside a list,
modelling Python's substring operator `in`. -/
def listInfix (needle : List Char) : List Char → Bool
  | [] => needle.isEmpty
  | c :: t => needle.isPrefixOf (c :: t) || listInfix needle t

/-- Substring test on strings (Python `needle in hay`). -/
def strContains (hay needle : String) : Bool :=
  listInfix needle.toList hay.toList

/-- Value of a dictionary entry with default `''`, modelling
`annonce.get(key, '')` for string-valued records. -/
def pyGet (o : Option String) : String :=
  o.getD ""

/-- Python truthiness of an optional string (`None` and `''` are falsy). -/
def strTruthy (o : Option String) : Bool :=
  match o with
  | none => false
  | some s => s != ""

/-- Python truthiness of an optional integer (`None` and `0` are falsy). -/
def intTruthy (o : Option Int) : Bool :=
  match o with
  | none => false
  | some n => n != 0

/-- Python truthiness of an optional list (`None` and `[]` are falsy). -/
def listTruthy (o : Option (List String)) : Bool :=
  match o with
  | none => false
  | some l => !l.isEmpty

/-- One extracted record (`annonce`), as initialised by
`AnnonceScraper._extract_annonce_data` in `scraper_annonces.py`.
Fields that never influence the claims (dates, reference, detail URL,
timestamp) are kept as optional strings as well. -/
structure Annonce where
  titre : Option String := none
  description : Option String := none
  entreprise : Option String := none
  secteur : Option String := none
  localisation : Option String := none
  prix : Option String := none
  date_publication : Option String := none
  reference : Option String := none
  url_details : Option String := none
  contact : Option String := none
deriving DecidableEq

/-- `config.TARGET_SECTORS`. -/
def TARGET_SECTORS : List String :=
  ["informatique", "data", "conseil", "numérique", "digital", "technologie",
   "software", "saas", "intelligence artificielle", "ia", "machine learning",
   "développement", "web", "cloud", "cybersécurité", "analyse", "consulting"]

/-- `config.TARGET_DEPARTMENTS`. -/
def TARGET_DEPARTMENTS : List String :=
  ["75", "77", "78", "91", "92", "93", "94", "95"]

/-- The filter object (`AnnonceFilter.__init__` keeps the target sector and
department lists; `target_sectors_lower` is recomputed where needed). -/
structure AnnonceFilter where
  target_sectors : List String := TARGET_SECTORS
  target_departments : List String := TARGET_DEPARTMENTS
deriving DecidableEq

/-- `AnnonceFilter(target_sectors, target_departments)`: a falsy argument
(`None` or the empty list) falls back to the configuration default. -/
def mkAnnonceFilter (ts td : Option (List String)) : AnnonceFilter :=
  { target_sectors := if listTruthy ts then ts.getD [] else TARGET_SECTORS
    target_departments := if listTruthy td then td.getD [] else TARGET_DEPARTMENTS }

/-- Fallback technology keywords hard-coded in `AnnonceFilter._matches_sector`. -/
def tech_keywords : List String :=
  ["it", "tech", "logiciel", "software", "application", "site web", "webapp",
   "plateforme", "api", "erp", "crm", "saas", "paas", "cloud", "database",
   "développeur", "programmer", "data scientist", "analyste"]

/-- Search text of `_matches_sector`: titre, description, secteur and
entreprise joined by spaces, lower-cased. -/
def sectorSearchText (a : Annonce) : String :=
  lowerStr (pyGet a.titre ++ " " ++ pyGet a.description ++ " " ++
    pyGet a.secteur ++ " " ++ pyGet a.entreprise)

/-- `AnnonceFilter._matches_sector`. -/
def matches_sector (f : AnnonceFilter) (a : Annonce) : Bool :=
  (f.target_sectors.map lowerStr).any (fun s => strContains (sectorSearchText a) s)
  || tech_keywords.any (fun k => strContains (sectorSearchText a) k)

/-- `AnnonceFilter.filter_by_sector`. -/
def filter_by_sector (f : AnnonceFilter) (annonces : List Annonce) : List Annonce :=
  annonces.filter (matches_sector f)

/-- Word character of the regex engine (`\w`, ASCII fragment). -/
def isWordChar (c : Char) : Bool :=
  c.isAlphanum || c = '_'

/-- Word-character test through an optional character; positions outside
the string count as non-word, which is how `\b` treats the string ends. -/
def wordOpt : Option Char → Bool
  | none => false
  | some c => isWordChar c

/-- One attempted match of the regex `\b<dept>\d\d\d\b` starting at the
head of `s`, where `prev` is the character immediately before `s` (if
any).  The boundary `\b` holds where word-ness changes. -/
def deptMatchHere (dept : List Char) (prev : Option Char) (s : List Char) : Bool :=
  match s with
  | [] => false
  | c :: _ =>
    (wordOpt prev != isWordChar c) &&
    dept.isPrefixOf s &&
    (match s.drop dept.length with
     | d1 :: d2 :: d3 :: tail =>
       d1.isDigit && d2.isDigit && d3.isDigit && !wordOpt tail.head?
     | _ => false)

/-- `re.search(rf'\b<dept>\d{3}\b', s)`: try a match at every position. -/
def deptSearch (dept : List Char) (prev : Option Char) (s : List Char) : Bool :=
  match s with
  | [] => false
  | c :: rest => deptMatchHere dept prev (c :: rest) || deptSearch dept (some c) rest

/-- Region/department name keywords hard-coded in `_matches_location`. -/
def region_keywords : List String :=
  ["paris", "île-de-france", "ile-de-france", "idf", "seine-et-marne",
   "yvelines", "essonne", "hauts-de-seine", "seine-saint-denis",
   "val-de-marne", "val-d\x27oise"]

/-- The location text used by `_matches_location`:
`str(annonce.get('localisation', '')).lower()`. -/
def locationText (a : Annonce) : String :=
  lowerStr (pyGet a.localisation)

/-- `AnnonceFilter._matches_location`: a postal-code match for any target
department, or a region keyword, or an empty/None-rendered location. -/
def matches_location (f : AnnonceFilter) (a : Annonce) : Bool :=
  f.target_departments.any (fun d => deptSearch d.toList none (locationText a).toList)
  || region_keywords.any (fun k => strContains (locationText a) k)
  || (locationText a == "" || locationText a == "none")

/-- `AnnonceFilter.filter_by_location`. -/
def filter_by_location (f : AnnonceFilter) (annonces : List Annonce) : List Annonce :=
  annonces.filter (matches_location f)

/-- Search text of `filter_by_keywords`: titre and description joined by a
space, lower-cased. -/
def keywordSearchText (a : Annonce) : String :=
  lowerStr (pyGet a.titre ++ " " ++ pyGet a.description)

/-- `any(keyword in search_text for keyword in keywords_lower)`. -/
def hasKeyword (keywords : List String) (a : Annonce) : Bool :=
  (keywords.map lowerStr).any (fun k => strContains (keywordSearchText a) k)

/-- The per-record decision of `filter_by_keywords`:
`(has_keyword and not exclude) or (not has_keyword and exclude)`. -/
def keywordPasses (keywords : List String) (exclude : Bool) (a : Annonce) : Bool :=
  (hasKeyword keywords a && !exclude) || (!hasKeyword keywords a && exclude)

/-- `AnnonceFilter.filter_by_keywords`. -/
def filter_by_keywords (annonces : List Annonce) (keywords : List String)
    (exclude : Bool) : List Annonce :=
  annonces.filter (keywordPasses keywords exclude)

/-- Numeric value of a digit list (most significant first). -/
def digitsVal (ds : List Char) : Nat :=
  ds.foldl (fun n c => n * 10 + (c.toNat - '0'.toNat)) 0

/-- `int(re.sub(r'[^\d]', '', str(prix_str)))`: strip every non-digit
character and parse; `int('')` raises `ValueError`, modelled by `none`. -/
def parsePrice (s : String) : Option Int :=
  let ds := s.toList.filter Char.isDigit
  if ds.isEmpty then none else some (digitsVal ds : Nat)

/-- `if min_price and prix < min_price: continue` — the lower bound is
checked only when `min_price` is truthy. -/
def minViolated (minP : Option Int) (p : Int) : Bool :=
  match minP with
  | none => false
  | some m => m != 0 && decide (p < m)

/-- `if max_price and prix > max_price: continue`. -/
def maxViolated (maxP : Option Int) (p : Int) : Bool :=
  match maxP with
  | none => false
  | some m => m != 0 && decide (p > m)

/-- Per-record decision of `AnnonceFilter.filter_by_price`: a falsy price
or an unparsable price keeps the record; a parsed price must not violate
an active bound. -/
def pricePasses (minP maxP : Option Int) (a : Annonce) : Bool :=
  match a.prix with
  | none => true
  | some s =>
    if s = "" then true
    else
      match parsePrice s with
      | none => true
      | some p => !minViolated minP p && !maxViolated maxP p

/-- `AnnonceFilter.filter_by_price`. -/
def filter_by_price (annonces : List Annonce) (minP maxP : Option Int) : List Annonce :=
  annonces.filter (pricePasses minP maxP)

/-- `AnnonceScraper._is_valid_annonce`: truthy title of length `> 5` and
truthy description of length `> 20`. -/
def is_valid_annonce (a : Annonce) : Bool :=
  strTruthy a.titre && decide ((pyGet a.titre).length > 5) &&
  strTruthy a.description && decide ((pyGet a.description).length > 20)

/-- `AnnonceFilter.apply_all_filters`: the sector, location, include-keyword,
exclude-keyword and price stages applied in cascade, each stage only when
its controlling argument is truthy. -/
def apply_all_filters (f : AnnonceFilter) (annonces : List Annonce)
    (filter_sector filter_location : Bool)
    (custom_keywords exclude_keywords : Option (List String))
    (min_price max_price : Option Int) : List Annonce :=
  let r1 := if filter_sector then filter_by_sector f annonces else annonces
  let r2 := if filter_location then filter_by_location f r1 else r1
  let r3 := if listTruthy custom_keywords then
      filter_by_keywords r2 (custom_keywords.getD []) false else r2
  let r4 := if listTruthy exclude_keywords then
      filter_by_keywords r3 (exclude_keywords.getD []) true else r3
  if intTruthy min_price || intTruthy max_price then
    filter_by_price r4 min_price max_price
  else r4

/-- The same cascade with the price stage removed; comparison target for
the claim that a zero/absent bound pair skips that stage. -/
def apply_filters_without_price_stage (f : AnnonceFilter) (annonces : List Annonce)
    (filter_sector filter_location : Bool)
    (custom_keywords exclude_keywords : Option (List String)) : List Annonce :=
  let r1 := if filter_sector then filter_by_sector f annonces else annonces
  let r2 := if filter_location then filter_by_location f r1 else r1
  let r3 := if listTruthy custom_keywords then
      filter_by_keywords r2 (custom_keywords.getD []) false else r2
  if listTruthy exclude_keywords then
      filter_by_keywords r3 (exclude_keywords.getD []) true else r3

/-- A price that the filter cannot turn into a number: the field is absent
(or `None`), or stripping the non-digits leaves nothing to parse. -/
def priceUnparsable (a : Annonce) : Prop :=
  a.prix = none ∨ ∃ s, a.prix = some s ∧ parsePrice s = none

/-- Record priced 250000 used in the boundary tests. -/
def annonce250 : Annonce :=
  { titre := some "Entreprise de services numériques", prix := some "250000" }

/-- Record with the unparsable price string `N/A`. -/
def annonceNA : Annonce :=
  { titre := some "Cabinet de conseil", prix := some "N/A" }

/-- Record priced 350000. -/
def annonce350 : Annonce :=
  { titre := some "Agence de communication", prix := some "350000" }

/-- The character standing immediately before the match position: the last
character of `pre` when `pre` is non-empty, else the ambient `prev`. -/
def prevCtx (prev : Option Char) (pre : List Char) : Option Char :=
  pre.getLast?.or prev

/-- The dept code occurs in `s` as the two leading digits of a five-digit
postal code standing on regex word boundaries: `s` splits as
`pre ++ dept ++ d ++ post` with `d` three digits and non-word characters
(or the string ends) on both sides. -/
def DeptPostalOccurs (dept : String) (s : String) : Prop :=
  ∃ pre d post, s.toList = pre ++ dept.toList ++ d ++ post ∧ d.length = 3
    ∧ (∀ c ∈ d, c.isDigit = true)
    ∧ wordOpt pre.getLast? = false ∧ wordOpt post.head? = false

/-- Filter targeting the departments 75 and 92 only. -/
def filter7592 : AnnonceFilter :=
  { target_departments := ["75", "92"] }

/-- Filter targeting the department 75 only. -/
def filter75 : AnnonceFilter :=
  { target_departments := ["75"] }

/-- Record located `75008 Paris`. -/
def annonceParis : Annonce :=
  { localisation := some "75008 Paris" }

/-- Record located `13001 Marseille`. -/
def annonceMarseille : Annonce :=
  { localisation := some "13001 Marseille" }

/-- Record with an empty location string. -/
def annonceEmptyLoc : Annonce :=
  { localisation := some "" }

/-- Record whose location is the string `None` — the text Python produces
when a missing location value is rendered with `str`. -/
def annonceNoneLoc : Annonce :=
  { localisation := some "None" }

/-- Characters allowed in a URL scheme after the first letter
(`urllib.parse.scheme_chars`). -/
def isSchemeChar (c : Char) : Bool :=
  c.isAlpha || c.isDigit || c = '+' || c = '-' || c = '.'

/-- Split a list at the first occurrence of `c` (`str.split(c, 1)`);
`none` when `c` does not occur. -/
def splitFirst (c : Char) : List Char → Option (List Char × List Char)
  | [] => none
  | x :: xs =>
    if x = c then some ([], xs)
    else
      match splitFirst c xs with
      | none => none
      | some (a, b) => some (x :: a, b)

/-- Scheme recognition of `urllib.parse.urlsplit`: the text before the
first colon is a scheme when it is non-empty, starts with an ASCII
letter and consists of scheme characters only; it is lower-cased.
Otherwise the URL is left untouched. -/
def splitScheme (l : List Char) : List Char × List Char :=
  match splitFirst ':' l with
  | none => ([], l)
  | some (before, after) =>
    match before with
    | [] => ([], l)
    | c :: cs =>
      if c.isAlpha && (c :: cs).all isSchemeChar then
        ((c :: cs).map Char.toLower, after)
      else ([], l)

/-- A character ending the netloc (`urllib.parse._splitnetloc` looks for
the earliest of `/`, `?` and `#`). -/
def isNetlocEnd (c : Char) : Bool :=
  c = '/' || c = '?' || c = '#'

/-- Netloc extraction: when the remainder starts with `//` the netloc
reaches up to the next `/`, `?` or `#`; otherwise there is no netloc. -/
def splitNetloc (l : List Char) : List Char × List Char :=
  if l.take 2 = ['/', '/'] then
    ((l.drop 2).takeWhile (fun c => !isNetlocEnd c),
     (l.drop 2).dropWhile (fun c => !isNetlocEnd c))
  else ([], l)

/-- Parameter split of `urllib.parse.urlparse` (`_splitparams`): the
parameters start at the first `;` inside the last `/`-segment of the
path (or anywhere when the path has no `/`). -/
def splitParams (l : List Char) : List Char × List Char :=
  if l.contains '/' then
    let segRev := l.reverse.takeWhile (fun c => c ≠ '/')
    let pre := l.take (l.length - segRev.length)
    match splitFirst ';' segRev.reverse with
    | none => (l, [])
    | some (a, b) => (pre ++ a, b)
  else
    match splitFirst ';' l with
    | none => (l, [])
    | some (a, b) => (a, b)

/-- Result of `urllib.parse.urlparse`, as character lists. -/
structure UrlParts where
  scheme : List Char := []
  netloc : List Char := []
  path : List Char := []
  params : List Char := []
  query : List Char := []
  fragment : List Char := []
deriving DecidableEq

/-- `urllib.parse.urlsplit` with `allow_fragments=True`: scheme first,
then the netloc after a leading `//`, then the fragment after the first
`#`, then the query after the first `?`; the rest is the path. -/
def pyUrlsplit (url : List Char) : UrlParts :=
  let sp := splitScheme url
  let np := splitNetloc sp.2
  let fp :=
    match splitFirst '#' np.2 with
    | none => (np.2, [])
    | some (a, b) => (a, b)
  let qp :=
    match splitFirst '?' fp.1 with
    | none => (fp.1, [])
    | some (a, b) => (a, b)
  { scheme := sp.1, netloc := np.1, path := qp.1, query := qp.2, fragment := fp.2 }

/-- `urllib.parse.urlparse`: `urlsplit` plus the parameter split applied
to the path when it contains a `;`. -/
def pyUrlparse (url : List Char) : UrlParts :=
  let r := pyUrlsplit url
  if r.path.contains ';' then
    let pp := splitParams r.path
    { r with path := pp.1, params := pp.2 }
  else r

/-- Python `str.rstrip('/')`. -/
def rstripSlash (l : List Char) : List Char :=
  (l.reverse.dropWhile (fun c => c = '/')).reverse

/-- `QuadraticLabsScraper.normalize_url`: rebuild
`scheme://netloc path` from the parse, append `?query` when the query is
truthy, and strip trailing slashes from the result. -/
def normalize_url (url : String) : String :=
  let p := pyUrlparse url.toList
  let normalized := p.scheme ++ "://".toList ++ p.netloc ++ p.path
  let normalized := if p.query ≠ [] then normalized ++ '?' :: p.query else normalized
  String.mk (rstripSlash normalized)

/-- A structured absolute URL; `render` writes the standard form
`scheme://netloc path [?query] [#fragment]`. -/
structure UrlSpec where
  scheme : List Char
  netloc : List Char
  path : List Char := []
  query : List Char := []
  fragment : List Char := []
deriving DecidableEq

/-- Standard rendering of the URL components. -/
def UrlSpec.render (u : UrlSpec) : String :=
  String.mk (u.scheme ++ "://".toList ++ u.netloc ++ u.path
    ++ (if u.query ≠ [] then '?' :: u.query else [])
    ++ (if u.fragment ≠ [] then '#' :: u.fragment else []))

/-- Well-formed absolute URL: non-empty lower-case alphabetic scheme,
non-empty netloc free of `/?#`, a path that is empty or starts with `/`
and contains no `?`, `#` or `;`, and a query free of `#`. -/
def UrlSpec.WF (u : UrlSpec) : Prop :=
  u.scheme ≠ [] ∧ (∀ c ∈ u.scheme, c.isLower = true)
  ∧ u.netloc ≠ [] ∧ (∀ c ∈ u.netloc, isNetlocEnd c = false)
  ∧ (u.path = [] ∨ u.path.head? = some '/')
  ∧ ('?' : Char) ∉ u.path ∧ ('#' : Char) ∉ u.path ∧ (';' : Char) ∉ u.path
  ∧ ('#' : Char) ∉ u.query

/-- Sample well-formed URL used to instantiate the normalisation claims. -/
def urlEx : UrlSpec :=
  { scheme := "http".toList, netloc := "quadratic-labs.com".toList,
    path := "/page".toList }

/-- `QuadraticLabsScraper.get_links_from_page`: one `session.get` inside a
`try`; a raised `RequestException` (network error, timeout, `raise_for_status`
on a 5xx) is logged and turned into an empty link set — there is no retry
loop around it.  The fetch is an oracle from the attempt index to the
outcome (`none` = transient failure, `some` = the same-domain canonical
links extracted from the fetched page); the second component of the
result counts the attempts actually performed. -/
def get_links_from_page (attempts : Nat → Option (List String)) : List String × Nat :=
  match attempts 0 with
  | none => ([], 1)
  | some links => (links, 1)

/-- `AnnonceScraper.extract_annonces_from_page`: one `session.get` inside a
`try`; any exception yields `[]` for that page.  The successful branch
(structure-guided or heuristic extraction of the body) is abstracted into
the per-URL fetch result. -/
def extract_annonces_from_page (fetch : String → Option (List Annonce)) (url : String) :
    List Annonce × Nat :=
  match fetch url with
  | none => ([], 1)
  | some annonces => (annonces, 1)

/-- `AnnonceScraper.extract_annonces_from_multiple_pages`: each page is
processed in turn and the per-page results are concatenated; no page
outcome interrupts the loop. -/
def extract_annonces_from_multiple_pages (fetch : String → Option (List Annonce)) :
    List String → List Annonce
  | [] => []
  | p :: rest =>
    (extract_annonces_from_page fetch p).1
      ++ extract_annonces_from_multiple_pages fetch rest

/-- `config.MAX_RETRIES`. -/
def MAX_RETRIES : Nat := 3

/-- Body of the `for attempt in range(MAX_RETRIES)` loop of
`AnnuaireScraper._get_page_with_requests` (scraper_annuaire.py), over the
remaining attempt indices: a successful attempt returns the body at once;
a failed attempt other than the last sleeps
`DELAY_BETWEEN_REQUESTS * (attempt + 1)` before the next one.  The result
carries the attempts performed and the backoff multipliers slept. -/
def get_page_attempts (attempts : Nat → Option String) :
    List Nat → Option String × Nat × List Nat
  | [] => (none, 0, [])
  | a :: rest =>
    match attempts a with
    | some body => (some body, 1, [])
    | none =>
      let r := get_page_attempts attempts rest
      (r.1, r.2.1 + 1, (if a < MAX_RETRIES - 1 then [a + 1] else []) ++ r.2.2)

/-- `AnnuaireScraper._get_page_with_requests`: the loop run over
`range(MAX_RETRIES)`; `none` after the bound is exhausted. -/
def get_page_with_requests (attempts : Nat → Option String) :
    Option String × Nat × List Nat :=
  get_page_attempts attempts (List.range MAX_RETRIES)

/-- A fetch that fails transiently on the first attempt and would succeed
on any later one. -/
def failThenOk : Nat → Option (List String) :=
  fun n => if n = 0 then none else some ["http://quadratic-labs.com/about"]

/-- One HTML element: its tag name and the values of its `class`
attribute.  A parsed page is the list of its elements in document order;
`SiteAnalyzer._detect_structure` only ever runs `find_all` over the whole
soup, so the nesting of the document is irrelevant to it and the flat
element list carries exactly the information it consumes. -/
structure Elem where
  tag : String
  classes : List String
deriving DecidableEq

/-- A BeautifulSoup `class_` lambda filter matches an element when some
individual value of its multi-valued `class` attribute satisfies it (the
needles used below contain no space, so BeautifulSoup's additional check
against the space-joined attribute adds nothing). -/
def classAny (p : String → Bool) (e : Elem) : Bool :=
  e.classes.any p

/-- Class predicate of the list detector:
`c and ('list' in c.lower() or 'annonce' in c.lower())`. -/
def listClassHint (c : String) : Bool :=
  c != "" && (strContains (lowerStr c) "list" || strContains (lowerStr c) "annonce")

/-- Class predicate of the card detector:
`c and ('card' in c.lower() or 'item' in c.lower() or 'annonce' in c.lower())`. -/
def cardClassHint (c : String) : Bool :=
  c != "" && (strContains (lowerStr c) "card" || strContains (lowerStr c) "item"
    || strContains (lowerStr c) "annonce")

/-- Class predicate of the pagination detector. -/
def paginationClassHint (c : String) : Bool :=
  c != "" && strContains (lowerStr c) "pagination"

/-- `soup.find_all('table')`. -/
def findTables (page : List Elem) : List Elem :=
  page.filter (fun e => e.tag == "table")

/-- `soup.find_all(['ul', 'ol'], class_=...)` of the list detector. -/
def findLists (page : List Elem) : List Elem :=
  page.filter (fun e => (e.tag == "ul" || e.tag == "ol") && classAny listClassHint e)

/-- `soup.find_all(['div', 'article'], class_=...)` of the card detector. -/
def findCards (page : List Elem) : List Elem :=
  page.filter (fun e => (e.tag == "div" || e.tag == "article") && classAny cardClassHint e)

/-- `soup.find(['div', 'nav', 'ul'], class_=...)` of the pagination
detector, kept as the list of matches (only emptiness is consumed). -/
def findPagination (page : List Elem) : List Elem :=
  page.filter (fun e => (e.tag == "div" || e.tag == "nav" || e.tag == "ul")
    && classAny paginationClassHint e)

/-- The structure dictionary built by `SiteAnalyzer._detect_structure`. -/
structure PageStructure where
  url : String
  has_list : Bool := false
  has_table : Bool := false
  has_cards : Bool := false
  container_class : Option String := none
  item_tag : Option String := none
  pagination : Bool := false
deriving DecidableEq

/-- Body of `_detect_structure` on a successfully fetched page: the
table, list and card detectors run in this order and each overwrites
`item_tag` when it fires; the card detector also records the first
card's space-joined class as `container_class`. -/
def detect_structure_of (url : String) (page : List Elem) : PageStructure :=
  let s0 : PageStructure := { url := url }
  let s1 := if (findTables page).isEmpty then s0
    else { s0 with has_table := true, item_tag := some "tr" }
  let s2 := if (findLists page).isEmpty then s1
    else { s1 with has_list := true, item_tag := some "li" }
  let s3 :=
    match findCards page with
    | [] => s2
    | c0 :: _ =>
      { s2 with
        has_cards := true
        item_tag := some "div"
        container_class := (if c0.classes.isEmpty then s2.container_class
          else some (String.intercalate " " c0.classes)) }
  if (findPagination page).isEmpty then s3 else { s3 with pagination := true }

/-- `SiteAnalyzer._detect_structure`: `None` for a falsy URL and `None`
when the fetch raises; otherwise the structure of the fetched page
(`fetch` models `session.get` plus parsing, `none` a raised exception). -/
def detect_structure (fetch : String → Option (List Elem)) (url : Option String) :
    Option PageStructure :=
  match url with
  | none => none
  | some u =>
    if u = "" then none
    else
      match fetch u with
      | none => none
      | some page => some (detect_structure_of u page)

/-- A page holding both a `<table>` and a `<ul class="annonce-list">`. -/
def pageTableAndList : List Elem :=
  [{ tag := "html", classes := [] }, { tag := "body", classes := [] },
   { tag := "table", classes := [] }, { tag := "tr", classes := [] },
   { tag := "ul", classes := ["annonce-list"] }, { tag := "li", classes := [] }]

/-- Events recorded while the crawler runs: a page fetch
(`get_links_from_page` call) and a URL appended to the frontier queue. -/
inductive CrawlEvent where
  | fetch (url : String)
  | enqueue (url : String)
deriving DecidableEq

/-- The fetched URL of an event, `none` for an enqueue. -/
def fetchUrlOf : CrawlEvent → Option String
  | .fetch u => some u
  | .enqueue _ => none

/-- Per-site state of `QuadraticLabsScraper.scrape` (the attributes of
the scraper object): the Python sets `visited_urls` and `found_urls`
become duplicate-free lists (every insert checks membership first),
`url_depth` and `url_hierarchy` are association lists mirroring the
dictionaries, and `events` is an instrumentation trace of the fetches
and enqueues performed, in order.  The local FIFO `to_visit` of
`(url, parent, depth)` triples is passed to the loop separately. -/
structure CrawlState where
  visited : List String
  found : List String
  url_depth : List (String × Nat)
  url_hierarchy : List (String × (Option String × List String × Nat))
  events : List CrawlEvent
deriving DecidableEq

/-- Set insertion: `s.add(x)` on a Python set, as a duplicate-free list. -/
def insertNew (x : String) (l : List String) : List String :=
  if x ∈ l then l else l ++ [x]

/-- Write a key only when absent (`if k not in d: d[k] = v`). -/
def alSetdefault (k : String) (v : α) (d : List (String × α)) : List (String × α) :=
  if d.any (fun p => p.1 == k) then d else d ++ [(k, v)]

/-- Append `child` to the recorded children of `parentUrl` when that
entry exists and does not list the child yet. -/
def alAddChild (parentUrl child : String)
    (d : List (String × (Option String × List String × Nat))) :
    List (String × (Option String × List String × Nat)) :=
  d.map (fun p =>
    if p.1 == parentUrl && !p.2.2.1.contains child then
      (p.1, (p.2.1, p.2.2.1 ++ [child], p.2.2.2))
    else p)

/-- The `while to_visit and len(self.visited_urls) < max_pages` loop of
`QuadraticLabsScraper.scrape`.  An already-visited popped URL is skipped;
otherwise the URL is marked visited and found, its depth and hierarchy
entries are created, it is fetched (`links` abstracts
`get_links_from_page`, already canonicalised and domain-filtered; a
failed fetch gives the empty list), and every link not yet visited is
appended to the queue at `depth + 1`, added to `found_urls` and given a
default hierarchy entry.  The inner `for link in links` loop tests each
link against the visited set, which does not change during that loop, so
its effect is written per field over `newLinks`, the links passing the
test in order. -/
def scrapeLoop (links : String → List String) (maxPages : Nat) :
    List (String × Option String × Nat) → CrawlState → CrawlState
  | [], st => st
  | (current, parent, depth) :: rest, st =>
    if h : st.visited.length < maxPages then
      if current ∈ st.visited then
        scrapeLoop links maxPages rest st
      else
        let newLinks := (links current).filter (fun l => l ∉ current :: st.visited)
        let hier0 := alSetdefault current (parent, [], depth) st.url_hierarchy
        let hier1 :=
          match parent with
          | none => hier0
          | some pu => if pu = "" then hier0 else alAddChild pu current hier0
        scrapeLoop links maxPages
          (rest ++ newLinks.map (fun l => (l, some current, depth + 1)))
          { visited := current :: st.visited
            found := newLinks.foldl (fun f l => insertNew l f) (insertNew current st.found)
            url_depth := alSetdefault current depth st.url_depth
            url_hierarchy := newLinks.foldl
              (fun d l => alSetdefault l (some current, [], depth + 1) d) hier1
            events := st.events ++ CrawlEvent.fetch current :: newLinks.map CrawlEvent.enqueue }
    else st
termination_by qu st => (maxPages - st.visited.length, qu.length)
decreasing_by
  · right
    simp
  · left
    simp only [List.length_cons]
    omega

/-- `QuadraticLabsScraper.scrape`: seed the queue with the base URL at
depth 0, initialise the root depth and hierarchy entries, run the loop. -/
def scrape (links : String → List String) (base_url : String) (maxPages : Nat) :
    CrawlState :=
  scrapeLoop links maxPages [(base_url, none, 0)]
    { visited := []
      found := []
      url_depth := [(base_url, 0)]
      url_hierarchy := [(base_url, (none, [], 0))]
      events := [] }

/-- The return value of `scrape`: `sorted(list(self.found_urls))`. -/
def scrapeResult (links : String → List String) (base_url : String) (maxPages : Nat) :
    List String :=
  List.insertionSort (fun a b => a ≤ b) (scrape links base_url maxPages).found

/-- URLs reachable from the seed through the canonicalised link graph. -/
inductive Reachable (links : String → List String) (base : String) : String → Prop
  | base : Reachable links base base
  | step {u v : String} : Reachable links base u → v ∈ links u → Reachable links base v

/-- Loop invariant of `scrape`, over the current queue and state: visited
URLs are distinct, reachable, within the page cap and recorded in
`found`; queued URLs are reachable; the seed is visited or queued; every
link of a visited page is visited or queued; the fetch trace mirrors
`visited`, contains no URL twice, and no URL is fetched or enqueued after
its own fetch. -/
def CrawlInv (links : String → List String) (base : String) (maxPages : Nat)
    (qu : List (String × Option String × Nat)) (st : CrawlState) : Prop :=
  st.visited.Nodup
  ∧ st.visited.length ≤ maxPages
  ∧ (∀ u ∈ st.visited, Reachable links base u)
  ∧ (∀ q ∈ qu, Reachable links base q.1)
  ∧ (base ∈ st.visited ∨ base ∈ qu.map (fun q => q.1))
  ∧ (∀ u ∈ st.visited, ∀ v ∈ links u,
      v ∈ st.visited ∨ v ∈ qu.map (fun q => q.1))
  ∧ (∀ u ∈ st.visited, u ∈ st.found)
  ∧ (∀ u, CrawlEvent.fetch u ∈ st.events ↔ u ∈ st.visited)
  ∧ (st.events.filterMap fetchUrlOf).Nodup
  ∧ (∀ (pre post : List CrawlEvent) (u : String),
      st.events = pre ++ CrawlEvent.fetch u :: post →
      CrawlEvent.fetch u ∉ post ∧ CrawlEvent.enqueue u ∉ post)

/-- A seed page linking to two further pages which link nowhere. -/
def siteGraph : String → List String :=
  fun u => if u = "http://s" then ["http://s/a", "http://s/b"] else []

/-- A seed page linking to one further page which links nowhere. -/
def lineGraph : String → List String :=
  fun u => if u = "http://s" then ["http://s/a"] else []

theorem listInfix_iff (needle : List Char) :
    ∀ hay : List Char, listInfix needle hay = true ↔ needle <:+: hay := by
  intro hay
  induction hay with
  | nil =>
    simp [listInfix, List.isEmpty_iff]
  | cons c t ih =>
    simp only [listInfix, Bool.or_eq_true, List.isPrefixOf_iff_prefix, ih,
      List.infix_cons_iff]

theorem count_filter_partition [DecidableEq α] (p : α → Bool) (a : α) :
    ∀ l : List α,
      (l.filter p).count a + (l.filter (fun x => !p x)).count a = l.count a := by
  intro l
  induction l with
  | nil => simp
  | cons x t ih =>
    rw [List.filter_cons, List.filter_cons]
    by_cases hx : p x = true
    · rw [if_pos hx, if_neg (by simp [hx]), List.count_cons, List.count_cons]
      omega
    · have hx' : p x = false := by revert hx; cases p x <;> simp
      rw [if_neg (by simp [hx']), if_pos (by simp [hx']), List.count_cons,
        List.count_cons]
      omega

/-- Claim C7: in heuristic-fallback mode, `_is_valid_annonce` accepts a
record exactly when the title is longer than 5 characters and the
description longer than 20; the boundary cases title length 5 (rejected)
and title length 6 (accepted) are checked explicitly. -/
theorem claim_C7 :
    (∀ a : Annonce, is_valid_annonce a = true ↔
      5 < (pyGet a.titre).length ∧ 20 < (pyGet a.description).length)
    ∧ is_valid_annonce
        { titre := some "ABCDE", description := some "a description of length 26" } = false
    ∧ is_valid_annonce
        { titre := some "ABCDEF", description := some "a description of length 26" } = true := by
  refine ⟨fun a => ?_, by decide, by decide⟩
  cases ha : a.titre with
  | none =>
    simp only [is_valid_annonce, strTruthy, ha, Bool.false_and, Bool.and_eq_true,
      false_iff, not_and, Bool.false_eq_true, false_and, not_lt]
    intro h
    exact absurd h (by decide)
  | some t =>
    cases hd : a.description with
    | none =>
      simp only [is_valid_annonce, strTruthy, ha, hd, Bool.and_false, Bool.false_and,
        Bool.and_eq_true, false_iff, not_and, Bool.false_eq_true, false_and, not_lt]
      intro _
      decide
    | some d =>
      simp only [is_valid_annonce, strTruthy, pyGet, ha, hd, Option.getD_some,
        Bool.and_eq_true, bne_iff_ne, ne_eq, decide_eq_true_eq, gt_iff_lt]
      constructor
      · rintro ⟨⟨⟨-, h1⟩, -⟩, h2⟩
        exact ⟨h1, h2⟩
      · rintro ⟨h1, h2⟩
        have e1 : ¬ t = "" := fun he => absurd h1 (by rw [he]; decide)
        have e2 : ¬ d = "" := fun he => absurd h2 (by rw [he]; decide)
        exact ⟨⟨⟨e1, h1⟩, e2⟩, h2⟩

/-- Claim C10: the include pass and the exclude pass of
`filter_by_keywords` partition the input list — both outputs are
sublists of the input (hence order-preserving) and every record occurs
in the two outputs jointly exactly as often as in the input. -/
theorem claim_C10 :
    ∀ (annonces : List Annonce) (keywords : List String) (a : Annonce),
      (filter_by_keywords annonces keywords false).Sublist annonces
      ∧ (filter_by_keywords annonces keywords true).Sublist annonces
      ∧ (filter_by_keywords annonces keywords false).count a
        + (filter_by_keywords annonces keywords true).count a
        = annonces.count a := by
  intro annonces keywords a
  refine ⟨List.filter_sublist annonces, List.filter_sublist annonces, ?_⟩
  have hpred : annonces.filter (keywordPasses keywords true)
      = annonces.filter (fun x => !keywordPasses keywords false x) := by
    apply List.filter_congr
    intro x _
    unfold keywordPasses
    cases hasKeyword keywords x <;> rfl
  unfold filter_by_keywords
  rw [hpred]
  exact count_filter_partition (keywordPasses keywords false) a annonces

/-- Claim C9: a bound of `0` is falsy for `filter_by_price`, so
`min_price=0` (resp. `max_price=0`) behaves exactly like an absent lower
(resp. upper) bound, and `apply_all_filters` skips the price stage
entirely when both bounds are `0` or both are `None`. -/
theorem claim_C9 :
    (∀ (annonces : List Annonce) (maxP : Option Int),
      filter_by_price annonces (some 0) maxP = filter_by_price annonces none maxP)
    ∧ (∀ (annonces : List Annonce) (minP : Option Int),
      filter_by_price annonces minP (some 0) = filter_by_price annonces minP none)
    ∧ (∀ (f : AnnonceFilter) (annonces : List Annonce) (fs fl : Bool)
        (ck ek : Option (List String)),
      apply_all_filters f annonces fs fl ck ek (some 0) (some 0)
        = apply_filters_without_price_stage f annonces fs fl ck ek
      ∧ apply_all_filters f annonces fs fl ck ek none none
        = apply_filters_without_price_stage f annonces fs fl ck ek) := by
  refine ⟨fun annonces maxP => ?_, fun annonces minP => ?_, fun f annonces fs fl ck ek => ?_⟩
  · apply List.filter_congr
    intro a _
    unfold pricePasses minViolated
    cases a.prix <;> simp
  · apply List.filter_congr
    intro a _
    unfold pricePasses maxViolated
    cases a.prix <;> simp
  · constructor <;>
      simp [apply_all_filters, apply_filters_without_price_stage, intTruthy]

/-- Claim C5: the price filter with bounds 100000/300000 keeps the record
priced 250000 and the record priced `N/A` and drops the record priced
350000; in general an unparsable or missing price always passes, and a
parsed price must lie between two supplied (positive) bounds. -/
theorem claim_C5 :
    (filter_by_price [annonce250, annonceNA, annonce350] (some 100000) (some 300000)
      = [annonce250, annonceNA])
    ∧ (∀ (annonces : List Annonce) (minP maxP : Option Int) (a : Annonce),
      priceUnparsable a →
        (a ∈ filter_by_price annonces minP maxP ↔ a ∈ annonces))
    ∧ (∀ (annonces : List Annonce) (m M p : Int) (s : String) (a : Annonce),
      0 < m → 0 < M → a.prix = some s → parsePrice s = some p →
        (a ∈ filter_by_price annonces (some m) (some M) ↔
          a ∈ annonces ∧ m ≤ p ∧ p ≤ M)) := by
  refine ⟨by decide, ?_, ?_⟩
  · intro annonces minP maxP a hu
    have hp : pricePasses minP maxP a = true := by
      rcases hu with h | ⟨s, hs, hps⟩
      · simp [pricePasses, h]
      · by_cases he : s = ""
        · simp [pricePasses, hs, he]
        · simp [pricePasses, hs, he, hps]
    simp [filter_by_price, List.mem_filter, hp]
  · intro annonces m M p s a hm hM hs hps
    have he : s ≠ "" := by
      intro h
      rw [h] at hps
      simp [parsePrice, List.isEmpty] at hps
    have hp : pricePasses (some m) (some M) a
        = (!minViolated (some m) p && !maxViolated (some M) p) := by
      simp [pricePasses, hs, he, hps]
    have hmv : minViolated (some m) p = decide (p < m) := by
      simp [minViolated]
      omega
    have hMv : maxViolated (some M) p = decide (p > M) := by
      simp [maxViolated]
      omega
    rw [filter_by_price, List.mem_filter, hp, hmv, hMv]
    constructor
    · intro ⟨hmem, hbool⟩
      simp only [Bool.and_eq_true, Bool.not_eq_true', decide_eq_false_iff_not] at hbool
      exact ⟨hmem, by omega, by omega⟩
    · intro ⟨hmem, h1, h2⟩
      refine ⟨hmem, ?_⟩
      simp only [Bool.and_eq_true, Bool.not_eq_true', decide_eq_false_iff_not]
      omega

theorem prevCtx_none (pre : List Char) : prevCtx none pre = pre.getLast? := by
  unfold prevCtx
  cases pre.getLast? <;> rfl

theorem prevCtx_cons (prev : Option Char) (c : Char) (pre : List Char) :
    prevCtx prev (c :: pre) = prevCtx (some c) pre := by
  cases pre with
  | nil => rfl
  | cons x xs =>
    obtain ⟨y, hy⟩ := Option.isSome_iff_exists.mp
      (List.getLast?_isSome.mpr (List.cons_ne_nil x xs))
    simp [prevCtx, List.getLast?_cons_cons, hy]

theorem isWordChar_of_digit {c : Char} (h : c.isDigit = true) : isWordChar c = true := by
  simp [isWordChar, Char.isAlphanum, h]

theorem deptMatchHere_iff (dept : List Char) (hne : dept ≠ [])
    (hdig : ∀ c ∈ dept, c.isDigit = true) (prev : Option Char) (s : List Char) :
    deptMatchHere dept prev s = true ↔
      ∃ d post, s = dept ++ d ++ post ∧ d.length = 3
        ∧ (∀ c ∈ d, c.isDigit = true)
        ∧ wordOpt prev = false ∧ wordOpt post.head? = false := by
  obtain ⟨a, dt, rfl⟩ : ∃ a dt, dept = a :: dt := by
    cases dept with
    | nil => exact absurd rfl hne
    | cons a dt => exact ⟨a, dt, rfl⟩
  have haw : isWordChar a = true := isWordChar_of_digit (hdig a (by simp))
  cases s with
  | nil =>
    simp only [deptMatchHere, false_iff, Bool.false_eq_true]
    rintro ⟨d, post, h, -, -, -, -⟩
    simp at h
  | cons c s' =>
    simp only [deptMatchHere, Bool.and_eq_true, List.isPrefixOf_iff_prefix]
    constructor
    · rintro ⟨⟨hbl, hpref⟩, hmatch⟩
      obtain ⟨r, hr⟩ := hpref
      simp only [List.cons_append, List.cons.injEq] at hr
      obtain ⟨rfl, hs'⟩ := hr
      have hdrop : (a :: s').drop (a :: dt).length = r := by
        rw [← hs']
        simp [List.drop_left]
      rw [hdrop] at hmatch
      have hprev : wordOpt prev = false := by
        cases hw : wordOpt prev
        · rfl
        · rw [hw, haw] at hbl
          simp at hbl
      match r, hmatch with
      | d1 :: d2 :: d3 :: tail, hmatch =>
        simp only [Bool.and_eq_true, Bool.not_eq_true'] at hmatch
        refine ⟨[d1, d2, d3], tail, ?_, rfl, ?_, hprev, hmatch.2⟩
        · rw [← hs']
          simp only [List.cons_append, List.append_assoc, List.nil_append]
        · intro x hx
          simp only [List.mem_cons, List.not_mem_nil, or_false] at hx
          rcases hx with rfl | rfl | rfl
          · exact hmatch.1.1.1
          · exact hmatch.1.1.2
          · exact hmatch.1.2
    · rintro ⟨d, post, heq, h3, hdd, hprev, hpost⟩
      obtain ⟨d1, d2, d3, rfl⟩ := List.length_eq_three.mp h3
      simp only [List.cons_append, List.append_assoc, List.cons.injEq] at heq
      obtain ⟨rfl, hs'⟩ := heq
      refine ⟨⟨?_, ?_⟩, ?_⟩
      · rw [haw, hprev]
        rfl
      · exact ⟨[d1, d2, d3] ++ post, by simp [hs']⟩
      · have hdrop : (c :: s').drop (c :: dt).length = [d1, d2, d3] ++ post := by
          simp only [hs', List.length_cons, List.drop_succ_cons]
          exact List.drop_left dt ([d1, d2, d3] ++ post)
        rw [hdrop]
        simp only [List.cons_append, List.nil_append, Bool.and_eq_true,
          Bool.not_eq_true']
        exact ⟨⟨⟨hdd d1 (by simp), hdd d2 (by simp)⟩, hdd d3 (by simp)⟩, hpost⟩

theorem deptSearch_iff (dept : List Char) (hlen : dept.length = 2)
    (hdig : ∀ c ∈ dept, c.isDigit = true) :
    ∀ (s : List Char) (prev : Option Char),
      deptSearch dept prev s = true ↔
        ∃ pre d post, s = pre ++ dept ++ d ++ post ∧ d.length = 3
          ∧ (∀ c ∈ d, c.isDigit = true)
          ∧ wordOpt (prevCtx prev pre) = false ∧ wordOpt post.head? = false := by
  have hne : dept ≠ [] := by
    intro h
    rw [h] at hlen
    simp at hlen
  intro s
  induction s with
  | nil =>
    intro prev
    simp only [deptSearch, false_iff, Bool.false_eq_true]
    rintro ⟨pre, d, post, h, h3, -, -, -⟩
    have hl := congrArg List.length h
    simp only [List.length_nil, List.length_append, hlen, h3] at hl
    omega
  | cons c s' ih =>
    intro prev
    have hmh := deptMatchHere_iff dept hne hdig prev (c :: s')
    simp only [deptSearch, Bool.or_eq_true]
    rw [hmh, ih (some c)]
    constructor
    · rintro (⟨d, post, heq, h3, hdd, hl, hr⟩ | ⟨pre, d, post, heq, h3, hdd, hl, hr⟩)
      · refine ⟨[], d, post, by simpa using heq, h3, hdd, ?_, hr⟩
        simpa [prevCtx] using hl
      · refine ⟨c :: pre, d, post, by simp [heq], h3, hdd, ?_, hr⟩
        rwa [prevCtx_cons]
    · rintro ⟨pre, d, post, heq, h3, hdd, hl, hr⟩
      cases pre with
      | nil =>
        left
        refine ⟨d, post, by simpa using heq, h3, hdd, ?_, hr⟩
        simpa [prevCtx] using hl
      | cons c0 pre' =>
        right
        simp only [List.cons_append, List.append_assoc, List.cons.injEq] at heq
        obtain ⟨hc, hs'⟩ := heq
        subst hc
        refine ⟨pre', d, post, by simp [hs', List.append_assoc], h3, hdd, ?_, hr⟩
        rwa [prevCtx_cons] at hl

theorem deptPostalOccurs_iff (dept s : String) (hlen : dept.toList.length = 2)
    (hdig : ∀ c ∈ dept.toList, c.isDigit = true) :
    deptSearch dept.toList none s.toList = true ↔ DeptPostalOccurs dept s := by
  rw [deptSearch_iff dept.toList hlen hdig s.toList none]
  unfold DeptPostalOccurs
  constructor
  · rintro ⟨pre, d, post, h1, h2, h3, h4, h5⟩
    exact ⟨pre, d, post, h1, h2, h3, by rwa [prevCtx_none] at h4, h5⟩
  · rintro ⟨pre, d, post, h1, h2, h3, h4, h5⟩
    exact ⟨pre, d, post, h1, h2, h3, by rwa [prevCtx_none], h5⟩

/-- Claim C6 (amended): the location filter passes a record exactly when a
target department matches as the two-digit prefix of a five-digit postal
code in the location text, or a region keyword occurs in it, or the
location text is empty — or (the amendment) the location text is the
string `none`, the lower-cased rendering of a Python `None` value, which
the source treats like an absent location.  The three concrete cases of
the claim are checked first. -/
theorem claim_C6 :
    matches_location filter75 annonceParis = true
    ∧ matches_location filter7592 annonceMarseille = false
    ∧ matches_location filter7592 annonceEmptyLoc = true
    ∧ (∀ (f : AnnonceFilter) (a : Annonce),
        (∀ dept ∈ f.target_departments,
          dept.toList.length = 2 ∧ ∀ c ∈ dept.toList, c.isDigit = true) →
        (matches_location f a = true ↔
          (∃ dept ∈ f.target_departments, DeptPostalOccurs dept (locationText a))
          ∨ (∃ kw ∈ region_keywords, kw.toList <:+: (locationText a).toList)
          ∨ locationText a = "" ∨ locationText a = "none")) := by
  refine ⟨by decide, by decide, by decide, ?_⟩
  intro f a hdepts
  unfold matches_location
  simp only [Bool.or_eq_true, List.any_eq_true, beq_iff_eq, strContains]
  constructor
  · rintro ((⟨dept, hmem, hsearch⟩ | ⟨kw, hmem, hc⟩) | he)
    · exact Or.inl ⟨dept, hmem, (deptPostalOccurs_iff dept (locationText a)
        (hdepts dept hmem).1 (hdepts dept hmem).2).mp hsearch⟩
    · exact Or.inr (Or.inl ⟨kw, hmem, (listInfix_iff _ _).mp hc⟩)
    · exact Or.inr (Or.inr he)
  · rintro (⟨dept, hmem, hocc⟩ | ⟨kw, hmem, hinf⟩ | he)
    · exact Or.inl (Or.inl ⟨dept, hmem, (deptPostalOccurs_iff dept (locationText a)
        (hdepts dept hmem).1 (hdepts dept hmem).2).mpr hocc⟩)
    · exact Or.inl (Or.inr ⟨kw, hmem, (listInfix_iff _ _).mpr hinf⟩)
    · exact Or.inr he

/-- Claim C6 witness: the general characterisation instantiated at the
department list `75` and the `75008 Paris` record. -/
theorem claim_C6_witness :
    matches_location filter75 annonceParis = true ↔
      (∃ dept ∈ filter75.target_departments,
        DeptPostalOccurs dept (locationText annonceParis))
      ∨ (∃ kw ∈ region_keywords, kw.toList <:+: (locationText annonceParis).toList)
      ∨ locationText annonceParis = "" ∨ locationText annonceParis = "none" :=
  claim_C6.2.2.2 filter75 annonceParis (by decide)

/-- Claim C6 counterexample: a record whose location text is the non-empty
string `none` (Python renders a `None` location this way) is passed by
the filter although no department postal code matches, no region keyword
occurs and the location text is not empty, so the claimed
characterisation rejects it. -/
theorem claim_C6_counterexample :
    matches_location filter7592 annonceNoneLoc = true
    ∧ ¬ ((∃ dept ∈ filter7592.target_departments,
            DeptPostalOccurs dept (locationText annonceNoneLoc))
        ∨ (∃ kw ∈ region_keywords, kw.toList <:+: (locationText annonceNoneLoc).toList)
        ∨ locationText annonceNoneLoc = "") := by
  refine ⟨by decide, ?_⟩
  rintro (⟨dept, hdept, hocc⟩ | ⟨kw, hkw, hinf⟩ | he)
  · have hd : dept = "75" ∨ dept = "92" := by
      simpa [filter7592] using hdept
    rcases hd with rfl | rfl
    · have hs := (deptPostalOccurs_iff "75" (locationText annonceNoneLoc)
        (by decide) (by decide)).mpr hocc
      exact absurd hs (by decide)
    · have hs := (deptPostalOccurs_iff "92" (locationText annonceNoneLoc)
        (by decide) (by decide)).mpr hocc
      exact absurd hs (by decide)
  · have hin := (listInfix_iff kw.toList (locationText annonceNoneLoc).toList).mpr hinf
    simp only [region_keywords, List.mem_cons, List.not_mem_nil, or_false] at hkw
    rcases hkw with rfl | rfl | rfl | rfl | rfl | rfl | rfl | rfl | rfl | rfl | rfl <;>
      exact absurd hin (by decide)
  · exact absurd he (by decide)

/-- Claim C5 witness: the general clauses instantiated — the `N/A` record
passes through any bounds, and the 250000 record is kept by the
100000/300000 bounds exactly because 100000 ≤ 250000 ≤ 300000. -/
theorem claim_C5_witness :
    (annonceNA ∈ filter_by_price [annonceNA] (some 1) (some 2) ↔ annonceNA ∈ [annonceNA])
    ∧ (annonce250 ∈ filter_by_price [annonce250] (some 100000) (some 300000) ↔
        annonce250 ∈ [annonce250] ∧ (100000 : Int) ≤ 250000 ∧ (250000 : Int) ≤ 300000) := by
  constructor
  · exact claim_C5.2.1 [annonceNA] (some 1) (some 2) annonceNA
      (Or.inr ⟨"N/A", rfl, by decide⟩)
  · exact claim_C5.2.2 [annonce250] 100000 300000 250000 "250000" annonce250
      (by decide) (by decide) rfl (by decide)

theorem isLower_toNat {c : Char} (h : c.isLower = true) :
    97 ≤ c.toNat ∧ c.toNat ≤ 122 := by
  simp [Char.isLower] at h
  exact ⟨h.1, h.2⟩

theorem toLower_of_isLower {c : Char} (h : c.isLower = true) : c.toLower = c := by
  have h2 := isLower_toNat h
  unfold Char.toLower
  rw [if_neg]
  omega

theorem isAlpha_of_isLower {c : Char} (h : c.isLower = true) : c.isAlpha = true := by
  simp [Char.isAlpha, h]

theorem isSchemeChar_of_isLower {c : Char} (h : c.isLower = true) :
    isSchemeChar c = true := by
  simp [isSchemeChar, isAlpha_of_isLower h]

theorem ne_colon_of_isLower {c : Char} (h : c.isLower = true) : c ≠ ':' := by
  intro he
  subst he
  exact absurd h (by decide)

theorem splitFirst_not_mem {c : Char} {l : List Char} (h : c ∉ l) :
    splitFirst c l = none := by
  induction l with
  | nil => rfl
  | cons x xs ih =>
    simp only [List.mem_cons, not_or] at h
    unfold splitFirst
    rw [if_neg (fun he => h.1 he.symm), ih h.2]

theorem splitFirst_append {c : Char} {l r : List Char} (h : c ∉ l) :
    splitFirst c (l ++ c :: r) = some (l, r) := by
  induction l with
  | nil => simp [splitFirst]
  | cons x xs ih =>
    simp only [List.mem_cons, not_or] at h
    rw [List.cons_append]
    unfold splitFirst
    rw [if_neg (fun he => h.1 he.symm), ih h.2]

theorem takeWhile_append_all {p : Char → Bool} {a b : List Char}
    (h : ∀ x ∈ a, p x = true) : (a ++ b).takeWhile p = a ++ b.takeWhile p := by
  induction a with
  | nil => simp
  | cons x xs ih =>
    simp only [List.cons_append, List.takeWhile_cons,
      h x (List.mem_cons_self x xs), if_true]
    rw [ih (fun y hy => h y (List.mem_cons_of_mem x hy))]

theorem dropWhile_append_all {p : Char → Bool} {a b : List Char}
    (h : ∀ x ∈ a, p x = true) : (a ++ b).dropWhile p = b.dropWhile p := by
  induction a with
  | nil => simp
  | cons x xs ih =>
    simp only [List.cons_append, List.dropWhile_cons,
      h x (List.mem_cons_self x xs), if_true]
    exact ih (fun y hy => h y (List.mem_cons_of_mem x hy))

theorem splitScheme_std {scheme rest : List Char} (h1 : scheme ≠ [])
    (h2 : ∀ c ∈ scheme, c.isLower = true) :
    splitScheme (scheme ++ ':' :: rest) = (scheme, rest) := by
  have hnc : (':' : Char) ∉ scheme := fun hm => ne_colon_of_isLower (h2 _ hm) rfl
  obtain ⟨c, cs, rfl⟩ : ∃ c cs, scheme = c :: cs := by
    cases scheme with
    | nil => exact absurd rfl h1
    | cons c cs => exact ⟨c, cs, rfl⟩
  unfold splitScheme
  rw [splitFirst_append hnc]
  have hcond : (c.isAlpha && (c :: cs).all isSchemeChar) = true := by
    rw [isAlpha_of_isLower (h2 c (List.mem_cons_self c cs)), Bool.true_and,
      List.all_eq_true]
    exact fun x hx => isSchemeChar_of_isLower (h2 x hx)
  simp only [hcond, if_true]
  have hmap : (c :: cs).map Char.toLower = (c :: cs).map id :=
    List.map_congr_left (fun a ha => toLower_of_isLower (h2 a ha))
  rw [hmap, List.map_id]

theorem splitNetloc_std {netloc tail : List Char}
    (hn : ∀ c ∈ netloc, isNetlocEnd c = false)
    (ht : tail = [] ∨ ∃ c t', tail = c :: t' ∧ isNetlocEnd c = true) :
    splitNetloc ('/' :: '/' :: (netloc ++ tail)) = (netloc, tail) := by
  unfold splitNetloc
  have hcond : List.take 2 ('/' :: '/' :: (netloc ++ tail)) = ['/', '/'] := rfl
  rw [if_pos hcond]
  have hall : ∀ x ∈ netloc, (!isNetlocEnd x) = true := by
    intro x hx
    rw [hn x hx]
    rfl
  have hdrop2 : ('/' :: '/' :: (netloc ++ tail)).drop 2 = netloc ++ tail := rfl
  rw [hdrop2, takeWhile_append_all hall, dropWhile_append_all hall]
  rcases ht with rfl | ⟨c, t', rfl, hc⟩
  · simp
  · rw [List.takeWhile_cons, List.dropWhile_cons]
    simp [hc]

theorem pyUrlsplit_std (scheme netloc path query fragment : List Char)
    (hs1 : scheme ≠ []) (hs2 : ∀ c ∈ scheme, c.isLower = true)
    (hn : ∀ c ∈ netloc, isNetlocEnd c = false)
    (hp1 : path = [] ∨ path.head? = some '/')
    (hpq : ('?' : Char) ∉ path) (hpf : ('#' : Char) ∉ path)
    (hqf : ('#' : Char) ∉ query) :
    pyUrlsplit (scheme ++ "://".toList ++ netloc ++ path
      ++ (if query ≠ [] then '?' :: query else [])
      ++ (if fragment ≠ [] then '#' :: fragment else []))
      = { scheme := scheme, netloc := netloc, path := path, params := [],
          query := query, fragment := fragment } := by
  have httl : "://".toList = [':', '/', '/'] := rfl
  have harg : scheme ++ "://".toList ++ netloc ++ path
      ++ (if query ≠ [] then '?' :: query else [])
      ++ (if fragment ≠ [] then '#' :: fragment else [])
      = scheme ++ ':' :: ('/' :: '/' :: (netloc ++ (path
          ++ ((if query ≠ [] then '?' :: query else [])
          ++ (if fragment ≠ [] then '#' :: fragment else []))))) := by
    rw [httl]
    simp [List.append_assoc]
  rw [harg]
  have htail : (path ++ ((if query ≠ [] then '?' :: query else [])
        ++ (if fragment ≠ [] then '#' :: fragment else []))) = []
      ∨ ∃ c t', (path ++ ((if query ≠ [] then '?' :: query else [])
        ++ (if fragment ≠ [] then '#' :: fragment else []))) = c :: t'
        ∧ isNetlocEnd c = true := by
    rcases hp1 with hp | hp
    · subst hp
      by_cases hq : query = []
      · by_cases hf : fragment = []
        · left
          simp [hq, hf]
        · right
          exact ⟨'#', fragment, by simp [hq, hf], by decide⟩
      · right
        refine ⟨'?', query ++ (if fragment ≠ [] then '#' :: fragment else []), ?_, by decide⟩
        simp [hq]
    · cases path with
      | nil => simp at hp
      | cons c t =>
        simp only [List.head?_cons, Option.some.injEq] at hp
        subst hp
        right
        exact ⟨'/', t ++ ((if query ≠ [] then '?' :: query else [])
          ++ (if fragment ≠ [] then '#' :: fragment else [])), by simp, by decide⟩
  unfold pyUrlsplit
  rw [splitScheme_std hs1 hs2]
  simp only
  rw [splitNetloc_std hn htail]
  simp only
  have hnotq : ('#' : Char) ∉ path ++ (if query ≠ [] then '?' :: query else []) := by
    intro hm
    rcases List.mem_append.mp hm with hm | hm
    · exact hpf hm
    · by_cases hq : query = []
      · simp [hq] at hm
      · rw [if_pos hq] at hm
        rcases List.mem_cons.mp hm with he | hm
        · cases he
        · exact hqf hm
  by_cases hf : fragment = []
  · subst hf
    simp only [ne_eq, not_true_eq_false, if_false, List.append_nil]
    rw [splitFirst_not_mem hnotq]
    simp only
    by_cases hq : query = []
    · subst hq
      simp only [ne_eq, not_true_eq_false, if_false, List.append_nil]
      rw [splitFirst_not_mem hpq]
    · rw [if_pos hq, splitFirst_append hpq]
  · rw [if_pos hf]
    have hshape : path ++ ((if query ≠ [] then '?' :: query else []) ++ '#' :: fragment)
        = (path ++ (if query ≠ [] then '?' :: query else [])) ++ '#' :: fragment := by
      simp [List.append_assoc]
    rw [hshape, splitFirst_append hnotq]
    simp only
    by_cases hq : query = []
    · subst hq
      simp only [ne_eq, not_true_eq_false, if_false, List.append_nil]
      rw [splitFirst_not_mem hpq]
    · rw [if_pos hq, splitFirst_append hpq]

theorem pyUrlparse_std (scheme netloc path query fragment : List Char)
    (hs1 : scheme ≠ []) (hs2 : ∀ c ∈ scheme, c.isLower = true)
    (hn : ∀ c ∈ netloc, isNetlocEnd c = false)
    (hp1 : path = [] ∨ path.head? = some '/')
    (hpq : ('?' : Char) ∉ path) (hpf : ('#' : Char) ∉ path)
    (hqf : ('#' : Char) ∉ query) (hps : (';' : Char) ∉ path) :
    pyUrlparse (scheme ++ "://".toList ++ netloc ++ path
      ++ (if query ≠ [] then '?' :: query else [])
      ++ (if fragment ≠ [] then '#' :: fragment else []))
      = { scheme := scheme, netloc := netloc, path := path, params := [],
          query := query, fragment := fragment } := by
  unfold pyUrlparse
  rw [pyUrlsplit_std scheme netloc path query fragment hs1 hs2 hn hp1 hpq hpf hqf]
  simp only
  rw [if_neg]
  intro hc
  exact hps (List.mem_of_elem_eq_true hc)

theorem rstripSlash_append_keep {a b : List Char} (h : rstripSlash b ≠ []) :
    rstripSlash (a ++ b) = a ++ rstripSlash b := by
  have hne : ¬ (b.reverse.dropWhile (fun c => c = '/')) = [] := by
    intro he
    apply h
    unfold rstripSlash
    rw [he, List.reverse_nil]
  unfold rstripSlash
  rw [List.reverse_append, List.dropWhile_append,
    if_neg (by simpa [List.isEmpty_iff] using hne), List.reverse_append,
    List.reverse_reverse]

theorem rstripSlash_append_gone {a b : List Char} (h : ∀ c ∈ b, c = '/') :
    rstripSlash (a ++ b) = rstripSlash a := by
  have hemp : (b.reverse.dropWhile (fun c => c = '/')) = [] := by
    rw [List.dropWhile_eq_nil_iff]
    intro x hx
    simp [h x (List.mem_reverse.mp hx)]
  unfold rstripSlash
  rw [List.reverse_append, List.dropWhile_append, if_pos (by simp [hemp])]

theorem rstripSlash_eq_nil_iff {l : List Char} :
    rstripSlash l = [] ↔ ∀ c ∈ l, c = '/' := by
  unfold rstripSlash
  rw [List.reverse_eq_nil_iff, List.dropWhile_eq_nil_iff]
  constructor
  · intro h c hc
    simpa using h c (List.mem_reverse.mpr hc)
  · intro h c hc
    simp [h c (List.mem_reverse.mp hc)]

theorem rstripSlash_eq_self {l : List Char} (h : ∀ c ∈ l, c ≠ '/') :
    rstripSlash l = l := by
  unfold rstripSlash
  cases hr : l.reverse with
  | nil =>
    rw [List.dropWhile_nil, List.reverse_nil]
    exact (List.reverse_eq_nil_iff.mp hr).symm
  | cons x xs =>
    have hx : x ∈ l := by
      rw [← List.mem_reverse, hr]
      exact List.mem_cons_self x xs
    rw [List.dropWhile_cons, if_neg (by simp [h x hx]), ← hr,
      List.reverse_reverse]

theorem rstripSlash_prefix_self (l : List Char) : rstripSlash l <+: l := by
  have h := List.dropWhile_suffix (l := l.reverse) (fun c => decide (c = '/'))
  have h2 := List.reverse_prefix.mpr h
  rwa [List.reverse_reverse] at h2

theorem dropWhile_self {p : Char → Bool} :
    ∀ l : List Char, (l.dropWhile p).dropWhile p = l.dropWhile p := by
  intro l
  induction l with
  | nil => rfl
  | cons x xs ih =>
    rw [List.dropWhile_cons]
    by_cases hx : p x = true
    · rw [if_pos hx]
      exact ih
    · rw [if_neg hx, List.dropWhile_cons, if_neg hx]

theorem rstripSlash_idem (l : List Char) :
    rstripSlash (rstripSlash l) = rstripSlash l := by
  unfold rstripSlash
  rw [List.reverse_reverse, dropWhile_self]

theorem normalize_render {u : UrlSpec} (h : u.WF) :
    normalize_url u.render
      = String.mk (rstripSlash (u.scheme ++ "://".toList ++ u.netloc ++ u.path
          ++ (if u.query ≠ [] then '?' :: u.query else []))) := by
  obtain ⟨hs1, hs2, hn1, hn2, hp1, hpq, hpf, hps, hqf⟩ := h
  unfold normalize_url UrlSpec.render
  have htl : (String.mk (u.scheme ++ "://".toList ++ u.netloc ++ u.path
      ++ (if u.query ≠ [] then '?' :: u.query else [])
      ++ (if u.fragment ≠ [] then '#' :: u.fragment else []))).toList
      = u.scheme ++ "://".toList ++ u.netloc ++ u.path
      ++ (if u.query ≠ [] then '?' :: u.query else [])
      ++ (if u.fragment ≠ [] then '#' :: u.fragment else []) := rfl
  rw [htl, pyUrlparse_std u.scheme u.netloc u.path u.query u.fragment
    hs1 hs2 hn2 hp1 hpq hpf hqf hps]
  by_cases hq : u.query = []
  · simp only [hq, ne_eq, not_true_eq_false, if_false, List.append_nil]
  · simp only [ne_eq, hq, not_false_eq_true, if_true]

/-- Claim C3 (amended): for every well-formed absolute URL,
`normalize_url` is idempotent provided the query is not a non-empty run
of slashes, two URLs differing only in the fragment always normalise
identically, and appending a trailing slash to the path leaves the
canonical key unchanged provided the URL carries no query string (a
slash ending the path of a URL with a query survives normalisation, and
a query of slashes only is itself clipped by the final `rstrip`). -/
theorem claim_C3 :
    (∀ u : UrlSpec, u.WF → ¬ (u.query ≠ [] ∧ ∀ c ∈ u.query, c = '/') →
      normalize_url (normalize_url u.render) = normalize_url u.render)
    ∧ (∀ u : UrlSpec, u.WF → ∀ f : List Char,
      normalize_url (UrlSpec.render { u with fragment := f })
        = normalize_url u.render)
    ∧ (∀ u : UrlSpec, u.WF → u.query = [] →
      normalize_url (UrlSpec.render { u with path := u.path ++ ['/'] })
        = normalize_url u.render) := by
  refine ⟨?_, ?_, ?_⟩
  · intro u hwf hq
    obtain ⟨hs1, hs2, hn1, hn2, hp1, hpq, hpf, hps, hqf⟩ := hwf
    have hnet : rstripSlash u.netloc = u.netloc := by
      apply rstripSlash_eq_self
      intro c hc he
      subst he
      have := hn2 _ hc
      simp [isNetlocEnd] at this
    rw [normalize_render ⟨hs1, hs2, hn1, hn2, hp1, hpq, hpf, hps, hqf⟩]
    by_cases hquery : u.query = []
    · rw [if_neg (fun h => h hquery), List.append_nil]
      by_cases hrp : rstripSlash u.path = []
      · have h1 : rstripSlash (u.scheme ++ "://".toList ++ u.netloc ++ u.path)
            = u.scheme ++ "://".toList ++ u.netloc := by
          rw [rstripSlash_append_gone (rstripSlash_eq_nil_iff.mp hrp),
            rstripSlash_append_keep (by rw [hnet]; exact hn1), hnet]
        rw [h1]
        have hu' : (UrlSpec.mk u.scheme u.netloc [] [] []).WF :=
          ⟨hs1, hs2, hn1, hn2, Or.inl rfl, by simp, by simp, by simp, by simp⟩
        have hrend : (UrlSpec.mk u.scheme u.netloc [] [] []).render
            = String.mk (u.scheme ++ "://".toList ++ u.netloc) := by
          unfold UrlSpec.render
          simp
        rw [← hrend, normalize_render hu']
        simp only [ne_eq, not_true_eq_false, if_false, List.append_nil]
        rw [rstripSlash_append_keep (by rw [hnet]; exact hn1), hnet, hrend]
      · have h1 : rstripSlash (u.scheme ++ "://".toList ++ u.netloc ++ u.path)
            = u.scheme ++ "://".toList ++ u.netloc ++ rstripSlash u.path :=
          rstripSlash_append_keep hrp
        rw [h1]
        have hsub := (rstripSlash_prefix_self u.path).subset
        have hp1' : rstripSlash u.path = [] ∨ (rstripSlash u.path).head? = some '/' := by
          rcases hp1 with hp | hp
          · left
            rw [hp]
            rfl
          · cases hrsp : rstripSlash u.path with
            | nil => exact Or.inl rfl
            | cons x xs =>
              right
              obtain ⟨t, hpref⟩ := rstripSlash_prefix_self u.path
              rw [hrsp] at hpref
              rw [← hpref] at hp
              simpa using hp
        have hu' : (UrlSpec.mk u.scheme u.netloc (rstripSlash u.path) [] []).WF :=
          ⟨hs1, hs2, hn1, hn2, hp1', fun hm => hpq (hsub hm),
            fun hm => hpf (hsub hm), fun hm => hps (hsub hm), by simp⟩
        have hrend : (UrlSpec.mk u.scheme u.netloc (rstripSlash u.path) [] []).render
            = String.mk (u.scheme ++ "://".toList ++ u.netloc ++ rstripSlash u.path) := by
          unfold UrlSpec.render
          simp
        rw [← hrend, normalize_render hu']
        simp only [ne_eq, not_true_eq_false, if_false, List.append_nil]
        rw [rstripSlash_append_keep (by rw [rstripSlash_idem]; exact hrp),
          rstripSlash_idem, hrend]
    · have hq' : rstripSlash u.query ≠ [] := by
        intro he
        exact hq ⟨hquery, rstripSlash_eq_nil_iff.mp he⟩
      rw [if_pos hquery]
      have hshape : u.scheme ++ "://".toList ++ u.netloc ++ u.path ++ '?' :: u.query
          = (u.scheme ++ "://".toList ++ u.netloc ++ u.path ++ ['?']) ++ u.query := by
        simp
      rw [hshape, rstripSlash_append_keep hq']
      have hsubq := (rstripSlash_prefix_self u.query).subset
      have hu' : (UrlSpec.mk u.scheme u.netloc u.path (rstripSlash u.query) []).WF :=
        ⟨hs1, hs2, hn1, hn2, hp1, hpq, hpf, hps, fun hm => hqf (hsubq hm)⟩
      have hrend : (UrlSpec.mk u.scheme u.netloc u.path (rstripSlash u.query) []).render
          = String.mk ((u.scheme ++ "://".toList ++ u.netloc ++ u.path ++ ['?'])
              ++ rstripSlash u.query) := by
        unfold UrlSpec.render
        simp only [ne_eq, hq', not_false_eq_true, if_true, not_true_eq_false,
          if_false, List.append_nil]
        congr 1
        simp
      rw [← hrend, normalize_render hu']
      simp only [ne_eq, hq', not_false_eq_true, if_true]
      have hshape2 : u.scheme ++ "://".toList ++ u.netloc ++ u.path
            ++ '?' :: rstripSlash u.query
          = (u.scheme ++ "://".toList ++ u.netloc ++ u.path ++ ['?'])
            ++ rstripSlash u.query := by
        simp
      rw [hshape2, rstripSlash_append_keep (by rw [rstripSlash_idem]; exact hq'),
        rstripSlash_idem, hrend]
  · intro u hwf f
    obtain ⟨hs1, hs2, hn1, hn2, hp1, hpq, hpf, hps, hqf⟩ := hwf
    rw [normalize_render (u := { u with fragment := f })
      ⟨hs1, hs2, hn1, hn2, hp1, hpq, hpf, hps, hqf⟩,
      normalize_render ⟨hs1, hs2, hn1, hn2, hp1, hpq, hpf, hps, hqf⟩]
  · intro u hwf hq0
    obtain ⟨hs1, hs2, hn1, hn2, hp1, hpq, hpf, hps, hqf⟩ := hwf
    have hwf2 : ({ u with path := u.path ++ ['/'] } : UrlSpec).WF := by
      refine ⟨hs1, hs2, hn1, hn2, ?_, ?_, ?_, ?_, hqf⟩
      · right
        rcases hp1 with hp | hp
        · rw [hp]
          rfl
        · cases hpa : u.path with
          | nil =>
            rw [hpa] at hp
            cases hp
          | cons c t =>
            rw [hpa] at hp
            simp only [List.head?_cons, Option.some.injEq] at hp
            subst hp
            rfl
      · simp only [List.mem_append, List.mem_singleton, not_or]
        exact ⟨hpq, by decide⟩
      · simp only [List.mem_append, List.mem_singleton, not_or]
        exact ⟨hpf, by decide⟩
      · simp only [List.mem_append, List.mem_singleton, not_or]
        exact ⟨hps, by decide⟩
    rw [normalize_render hwf2,
      normalize_render ⟨hs1, hs2, hn1, hn2, hp1, hpq, hpf, hps, hqf⟩]
    simp only [hq0, ne_eq, not_true_eq_false, if_false, List.append_nil]
    congr 1
    have hshape : u.scheme ++ "://".toList ++ u.netloc ++ (u.path ++ ['/'])
        = (u.scheme ++ "://".toList ++ u.netloc ++ u.path) ++ ['/'] := by
      simp
    rw [hshape, rstripSlash_append_gone (by intro c hc; simpa using hc)]

/-- Claim C3 witness: the three amended clauses applied to the concrete
URL `http://quadratic-labs.com/page`. -/
theorem claim_C3_witness :
    normalize_url (normalize_url urlEx.render) = normalize_url urlEx.render
    ∧ normalize_url (UrlSpec.render { urlEx with fragment := "section1".toList })
      = normalize_url urlEx.render
    ∧ normalize_url (UrlSpec.render { urlEx with path := urlEx.path ++ ['/'] })
      = normalize_url urlEx.render :=
  ⟨claim_C3.1 urlEx (by unfold UrlSpec.WF; decide) (by decide),
   claim_C3.2.1 urlEx (by unfold UrlSpec.WF; decide) "section1".toList,
   claim_C3.2.2 urlEx (by unfold UrlSpec.WF; decide) rfl⟩

/-- Claim C3 counterexample: normalisation is not idempotent on
`http://quadratic-labs.com/page?/` (the final `rstrip` eats into the
query, and the second pass then drops the now-empty query), and the two
URLs `http://quadratic-labs.com/page/?lang=fr` and
`http://quadratic-labs.com/page?lang=fr`, which differ only by a
trailing slash on the path, produce different canonical keys because the
`rstrip` runs after the query has been re-attached. -/
theorem claim_C3_counterexample :
    normalize_url (normalize_url "http://quadratic-labs.com/page?/")
      ≠ normalize_url "http://quadratic-labs.com/page?/"
    ∧ normalize_url "http://quadratic-labs.com/page/?lang=fr"
      ≠ normalize_url "http://quadratic-labs.com/page?lang=fr" := by
  constructor
  · decide
  · decide

/-- Claim C4 (amended): the crawl and extraction fetches are
single-attempt — a transient failure immediately yields an empty result
for that page and the multi-page run continues with every remaining page
— while only the annuaire page fetch (`_get_page_with_requests`) retries:
up to `MAX_RETRIES = 3` attempts with linearly increasing backoff
(multipliers 1 then 2 of the base delay), returning the first success or
`None` after exhaustion. -/
theorem claim_C4 :
    (∀ attempts : Nat → Option (List String), (get_links_from_page attempts).2 = 1)
    ∧ (∀ attempts : Nat → Option (List String), attempts 0 = none →
        get_links_from_page attempts = ([], 1))
    ∧ (∀ (fetch : String → Option (List Annonce)) (pages : List String),
        extract_annonces_from_multiple_pages fetch pages
          = pages.flatMap (fun p => (extract_annonces_from_page fetch p).1))
    ∧ (∀ (o : Nat → Option String) (b : String), o 0 = some b →
        get_page_with_requests o = (some b, 1, []))
    ∧ (∀ (o : Nat → Option String) (b : String), o 0 = none → o 1 = some b →
        get_page_with_requests o = (some b, 2, [1]))
    ∧ (∀ o : Nat → Option String, o 0 = none → o 1 = none → o 2 = none →
        get_page_with_requests o = (none, 3, [1, 2])) := by
  have hrange : List.range MAX_RETRIES = [0, 1, 2] := rfl
  refine ⟨?_, ?_, ?_, ?_, ?_, ?_⟩
  · intro attempts
    unfold get_links_from_page
    cases attempts 0 <;> rfl
  · intro attempts h
    unfold get_links_from_page
    rw [h]
  · intro fetch pages
    induction pages with
    | nil => rfl
    | cons p rest ih =>
      rw [extract_annonces_from_multiple_pages, ih, List.flatMap_cons]
  · intro o b h
    unfold get_page_with_requests
    rw [hrange]
    unfold get_page_attempts
    rw [h]
  · intro o b h0 h1
    unfold get_page_with_requests
    rw [hrange]
    simp [get_page_attempts, h0, h1, MAX_RETRIES]
  · intro o h0 h1 h2
    unfold get_page_with_requests
    rw [hrange]
    simp [get_page_attempts, h0, h1, h2, MAX_RETRIES]

/-- Claim C4 witness: the annuaire fetch clauses applied to concrete
oracles — immediate success, success on the second attempt after one
backoff unit, and full exhaustion with backoff units 1 and 2. -/
theorem claim_C4_witness :
    get_page_with_requests (fun _ => some "body") = (some "body", 1, [])
    ∧ get_page_with_requests
        (fun n => if n = 0 then none else some "body") = (some "body", 2, [1])
    ∧ get_page_with_requests (fun _ => none) = (none, 3, [1, 2])
    ∧ get_links_from_page (fun _ => none) = ([], 1) := by
  refine ⟨?_, ?_, ?_, ?_⟩
  · exact claim_C4.2.2.2.1 (fun _ => some "body") "body" rfl
  · exact claim_C4.2.2.2.2.1 (fun n => if n = 0 then none else some "body") "body"
      rfl rfl
  · exact claim_C4.2.2.2.2.2 (fun _ => none) rfl rfl rfl
  · exact claim_C4.2.1 (fun _ => none) rfl

/-- Claim C4 counterexample: the crawler's page fetch is not retried — on
an oracle whose first attempt fails transiently and whose second attempt
would succeed, `get_links_from_page` performs exactly one attempt and
returns the empty link set, although the configured retry bound would
have allowed the successful second attempt. -/
theorem claim_C4_counterexample :
    get_links_from_page failThenOk = ([], 1)
    ∧ failThenOk 1 = some ["http://quadratic-labs.com/about"]
    ∧ 1 < MAX_RETRIES := by
  refine ⟨rfl, rfl, by decide⟩

theorem mem_insertNew_self (x : String) (l : List String) : x ∈ insertNew x l := by
  unfold insertNew
  by_cases hx : x ∈ l
  · rwa [if_pos hx]
  · rw [if_neg hx]
    exact List.mem_append_right _ (List.mem_singleton.mpr rfl)

theorem mem_foldl_insertNew (newLinks : List String) :
    ∀ (f : List String) (x : String), x ∈ f →
      x ∈ newLinks.foldl (fun f l => insertNew l f) f := by
  induction newLinks with
  | nil =>
    intro f x hx
    exact hx
  | cons l ls ih =>
    intro f x hx
    apply ih
    show x ∈ insertNew l f
    unfold insertNew
    by_cases hl : l ∈ f
    · rwa [if_pos hl]
    · rw [if_neg hl]
      exact List.mem_append_left _ hx

theorem fetch_not_mem_enqueues (u : String) (ls : List String) :
    CrawlEvent.fetch u ∉ ls.map CrawlEvent.enqueue := by
  intro hm
  obtain ⟨l, -, he⟩ := List.mem_map.mp hm
  cases he

theorem filterMap_enqueues (ls : List String) :
    (ls.map CrawlEvent.enqueue).filterMap fetchUrlOf = [] := by
  induction ls with
  | nil => rfl
  | cons l ls ih =>
    simp [List.filterMap_cons, fetchUrlOf, ih]

theorem mem_filterMap_fetch (u : String) (evs : List CrawlEvent) :
    u ∈ evs.filterMap fetchUrlOf ↔ CrawlEvent.fetch u ∈ evs := by
  rw [List.mem_filterMap]
  constructor
  · rintro ⟨e, he, hfe⟩
    cases e with
    | fetch v =>
      obtain rfl : v = u := by simpa [fetchUrlOf] using hfe
      exact he
    | enqueue v => simp [fetchUrlOf] at hfe
  · intro h
    exact ⟨CrawlEvent.fetch u, h, rfl⟩

theorem temporal_append {evs new : List CrawlEvent}
    (hold : ∀ (pre post : List CrawlEvent) (u : String),
      evs = pre ++ CrawlEvent.fetch u :: post →
      CrawlEvent.fetch u ∉ post ∧ CrawlEvent.enqueue u ∉ post)
    (hcross : ∀ u : String, CrawlEvent.fetch u ∈ evs →
      CrawlEvent.fetch u ∉ new ∧ CrawlEvent.enqueue u ∉ new)
    (hnew : ∀ (pre post : List CrawlEvent) (u : String),
      new = pre ++ CrawlEvent.fetch u :: post →
      CrawlEvent.fetch u ∉ post ∧ CrawlEvent.enqueue u ∉ post) :
    ∀ (pre post : List CrawlEvent) (u : String),
      evs ++ new = pre ++ CrawlEvent.fetch u :: post →
      CrawlEvent.fetch u ∉ post ∧ CrawlEvent.enqueue u ∉ post := by
  intro pre post u heq
  rcases List.append_eq_append_iff.mp heq with ⟨a', ha1, ha2⟩ | ⟨c', hc1, hc2⟩
  · exact hnew a' post u ha2
  · cases c' with
    | nil =>
      rw [List.nil_append] at hc2
      exact hnew [] post u (by rw [List.nil_append]; exact hc2.symm)
    | cons e c'' =>
      rw [List.cons_append] at hc2
      obtain ⟨rfl, hpost⟩ : CrawlEvent.fetch u = e ∧ post = c'' ++ new := by
        exact ⟨(List.cons.injEq _ _ _ _ ▸ hc2).1, (List.cons.injEq _ _ _ _ ▸ hc2).2⟩
      have hin : CrawlEvent.fetch u ∈ evs := by
        rw [hc1]
        exact List.mem_append_right _ (List.mem_cons_self _ _)
      have h1 := hold pre c'' u hc1
      have h2 := hcross u hin
      rw [hpost]
      constructor
      · intro hm
        rcases List.mem_append.mp hm with hm | hm
        · exact h1.1 hm
        · exact h2.1 hm
      · intro hm
        rcases List.mem_append.mp hm with hm | hm
        · exact h1.2 hm
        · exact h2.2 hm

theorem mem_insertNew_of_mem {u x : String} {l : List String} (h : u ∈ l) :
    u ∈ insertNew x l := by
  unfold insertNew
  by_cases hx : x ∈ l
  · rwa [if_pos hx]
  · rw [if_neg hx]
    exact List.mem_append_left _ h

theorem scrapeLoop_inv (links : String → List String) (base : String) (maxPages : Nat) :
    ∀ (qu : List (String × Option String × Nat)) (st : CrawlState),
      CrawlInv links base maxPages qu st →
      ∃ qu2 : List (String × Option String × Nat),
        CrawlInv links base maxPages qu2 (scrapeLoop links maxPages qu st)
        ∧ (qu2 = [] ∨ ¬ (scrapeLoop links maxPages qu st).visited.length < maxPages) := by
  intro qu st
  induction qu, st using scrapeLoop.induct links maxPages with
  | case1 st =>
    intro hinv
    refine ⟨[], ?_, Or.inl rfl⟩
    simp only [scrapeLoop]
    exact hinv
  | case2 current parent depth rest st h hmem ih =>
    intro hinv
    obtain ⟨i1, i2, i3, i4, i5, i6, i7, i8, i9, i10⟩ := hinv
    have hstep : scrapeLoop links maxPages ((current, parent, depth) :: rest) st
        = scrapeLoop links maxPages rest st := by
      conv_lhs => rw [scrapeLoop]
      rw [dif_pos h, if_pos hmem]
    have hinv' : CrawlInv links base maxPages rest st := by
      refine ⟨i1, i2, i3, ?_, ?_, ?_, i7, i8, i9, i10⟩
      · intro q hqm
        exact i4 q (List.mem_cons_of_mem _ hqm)
      · rcases i5 with h5 | h5
        · exact Or.inl h5
        · rw [List.map_cons] at h5
          rcases List.mem_cons.mp h5 with he | h5
          · exact Or.inl (he ▸ hmem)
          · exact Or.inr h5
      · intro u hu v hv
        rcases i6 u hu v hv with h6 | h6
        · exact Or.inl h6
        · rw [List.map_cons] at h6
          rcases List.mem_cons.mp h6 with he | h6
          · exact Or.inl (he ▸ hmem)
          · exact Or.inr h6
    rw [hstep]
    exact ih hinv'
  | case3 current parent depth rest st h hmem nl hier0 hier1 ih =>
    intro hinv
    obtain ⟨i1, i2, i3, i4, i5, i6, i7, i8, i9, i10⟩ := hinv
    have hreachcur : Reachable links base current :=
      i4 (current, parent, depth) (List.mem_cons_self _ _)
    have hnlmem : ∀ l ∈ nl, l ∈ links current ∧ l ∉ current :: st.visited := by
      intro l hl
      have hl2 : l ∈ (links current).filter (fun l => decide (l ∉ current :: st.visited)) := hl
      rw [List.mem_filter] at hl2
      exact ⟨hl2.1, of_decide_eq_true hl2.2⟩
    have hnlmem2 : ∀ l, l ∈ links current → l ∉ current :: st.visited → l ∈ nl := by
      intro l hl1 hl2
      show l ∈ (links current).filter (fun l => decide (l ∉ current :: st.visited))
      rw [List.mem_filter]
      exact ⟨hl1, decide_eq_true hl2⟩
    have hmapq : (rest ++ nl.map (fun l => (l, some current, depth + 1))).map (fun q => q.1)
        = rest.map (fun q => q.1) ++ nl := by
      rw [List.map_append, List.map_map]
      congr 1
      show List.map id nl = nl
      exact List.map_id nl
    have hinv3 : CrawlInv links base maxPages
        (rest ++ nl.map (fun l => (l, some current, depth + 1)))
        { visited := current :: st.visited
          found := nl.foldl (fun f l => insertNew l f) (insertNew current st.found)
          url_depth := alSetdefault current depth st.url_depth
          url_hierarchy := nl.foldl
            (fun d l => alSetdefault l (some current, [], depth + 1) d) hier1
          events := st.events ++ CrawlEvent.fetch current :: nl.map CrawlEvent.enqueue } := by
      refine ⟨?_, ?_, ?_, ?_, ?_, ?_, ?_, ?_, ?_, ?_⟩
      · exact List.nodup_cons.mpr ⟨hmem, i1⟩
      · show (current :: st.visited).length ≤ maxPages
        simp only [List.length_cons]
        omega
      · intro u hu
        rcases List.mem_cons.mp hu with rfl | hu
        · exact hreachcur
        · exact i3 u hu
      · intro q hq4
        rcases List.mem_append.mp hq4 with hq4 | hq4
        · exact i4 q (List.mem_cons_of_mem _ hq4)
        · obtain ⟨l, hl, rfl⟩ := List.mem_map.mp hq4
          exact Reachable.step hreachcur (hnlmem l hl).1
      · rcases i5 with h5 | h5
        · exact Or.inl (List.mem_cons_of_mem _ h5)
        · rw [List.map_cons] at h5
          rcases List.mem_cons.mp h5 with he | h5
          · exact Or.inl (he ▸ List.mem_cons_self _ _)
          · exact Or.inr (by rw [hmapq]; exact List.mem_append_left _ h5)
      · intro u hu v hv
        rcases List.mem_cons.mp hu with he | hu
        · rw [he] at hv
          by_cases hvv : v ∈ current :: st.visited
          · exact Or.inl hvv
          · refine Or.inr ?_
            rw [hmapq]
            exact List.mem_append_right _ (hnlmem2 v hv hvv)
        · rcases i6 u hu v hv with h6 | h6
          · exact Or.inl (List.mem_cons_of_mem _ h6)
          · rw [List.map_cons] at h6
            rcases List.mem_cons.mp h6 with he | h6
            · exact Or.inl (he ▸ List.mem_cons_self _ _)
            · exact Or.inr (by rw [hmapq]; exact List.mem_append_left _ h6)
      · intro u hu
        rcases List.mem_cons.mp hu with rfl | hu
        · exact mem_foldl_insertNew nl _ u (mem_insertNew_self u st.found)
        · exact mem_foldl_insertNew nl _ u (mem_insertNew_of_mem (i7 u hu))
      · intro u
        show CrawlEvent.fetch u ∈ st.events ++ CrawlEvent.fetch current
            :: nl.map CrawlEvent.enqueue ↔ u ∈ current :: st.visited
        simp only [List.mem_append, List.mem_cons]
        constructor
        · rintro (hu | hu | hu)
          · exact Or.inr ((i8 u).mp hu)
          · obtain rfl : u = current := by
              simpa using hu
            exact Or.inl rfl
          · exact absurd hu (fetch_not_mem_enqueues u nl)
        · rintro (rfl | hu)
          · exact Or.inr (Or.inl rfl)
          · exact Or.inl ((i8 u).mpr hu)
      · show ((st.events ++ CrawlEvent.fetch current
            :: nl.map CrawlEvent.enqueue).filterMap fetchUrlOf).Nodup
        simp only [List.filterMap_append, List.filterMap_cons]
        have hfc : fetchUrlOf (CrawlEvent.fetch current) = some current := rfl
        rw [hfc, filterMap_enqueues]
        rw [List.nodup_append]
        refine ⟨i9, List.nodup_singleton current, ?_⟩
        intro a ha ha'
        rw [List.mem_singleton] at ha'
        subst ha'
        have := (i8 a).mp ((mem_filterMap_fetch a st.events).mp ha)
        exact hmem this
      · show ∀ (pre post : List CrawlEvent) (u : String),
          st.events ++ CrawlEvent.fetch current :: nl.map CrawlEvent.enqueue
            = pre ++ CrawlEvent.fetch u :: post →
          CrawlEvent.fetch u ∉ post ∧ CrawlEvent.enqueue u ∉ post
        refine temporal_append i10 ?_ ?_
        · intro u hu
          have huv : u ∈ st.visited := (i8 u).mp hu
          constructor
          · intro hm
            rcases List.mem_cons.mp hm with he | hm
            · obtain rfl : u = current := by simpa using he
              exact hmem huv
            · exact fetch_not_mem_enqueues u nl hm
          · intro hm
            rcases List.mem_cons.mp hm with he | hm
            · cases he
            · obtain ⟨l, hl, he⟩ := List.mem_map.mp hm
              obtain rfl : l = u := by simpa using he
              exact (hnlmem l hl).2 (List.mem_cons_of_mem _ huv)
        · intro pre post u hsplit
          cases pre with
          | nil =>
            rw [List.nil_append] at hsplit
            obtain ⟨he, hpost⟩ : CrawlEvent.fetch current = CrawlEvent.fetch u
                ∧ nl.map CrawlEvent.enqueue = post := by
              exact ⟨(List.cons.injEq _ _ _ _ ▸ hsplit).1,
                (List.cons.injEq _ _ _ _ ▸ hsplit).2⟩
            obtain rfl : current = u := by simpa using he
            rw [← hpost]
            constructor
            · exact fetch_not_mem_enqueues current nl
            · intro hm
              obtain ⟨l, hl, he2⟩ := List.mem_map.mp hm
              obtain rfl : l = current := by simpa using he2
              exact (hnlmem l hl).2 (List.mem_cons_self _ _)
          | cons e pre' =>
            rw [List.cons_append] at hsplit
            have hmm : CrawlEvent.fetch u ∈ nl.map CrawlEvent.enqueue := by
              have h2 : nl.map CrawlEvent.enqueue = pre' ++ CrawlEvent.fetch u :: post := by
                exact (List.cons.injEq _ _ _ _ ▸ hsplit).2
              rw [h2]
              exact List.mem_append_right _ (List.mem_cons_self _ _)
            exact absurd hmm (fetch_not_mem_enqueues u nl)
    have hgoal := ih hinv3
    have hstep : scrapeLoop links maxPages ((current, parent, depth) :: rest) st
        = scrapeLoop links maxPages
            (rest ++ nl.map (fun l => (l, some current, depth + 1)))
            { visited := current :: st.visited
              found := nl.foldl (fun f l => insertNew l f) (insertNew current st.found)
              url_depth := alSetdefault current depth st.url_depth
              url_hierarchy := nl.foldl
                (fun d l => alSetdefault l (some current, [], depth + 1) d) hier1
              events := st.events ++ CrawlEvent.fetch current :: nl.map CrawlEvent.enqueue } := by
      conv_lhs => rw [scrapeLoop]
      rw [dif_pos h, if_neg hmem]
      rfl
    rw [hstep]
    exact hgoal
  | case4 current parent depth rest st h =>
    intro hinv
    refine ⟨(current, parent, depth) :: rest, ?_, Or.inr ?_⟩
    · have hstep : scrapeLoop links maxPages ((current, parent, depth) :: rest) st = st := by
        rw [scrapeLoop, dif_neg h]
      rw [hstep]
      exact hinv
    · have hstep : scrapeLoop links maxPages ((current, parent, depth) :: rest) st = st := by
        rw [scrapeLoop, dif_neg h]
      rw [hstep]
      exact h

/-- Claim C2 (amended): when several record patterns are present on one
page, the returned `item_tag` records the last matching detector in the
source order table, list, card — an effective priority of card over list
over table, the reverse of the claimed order — while the `has_table`,
`has_list` and `has_cards` flags are set independently, so a page with a
table always reports `has_table = true`. -/
theorem claim_C2 :
    ∀ (url : String) (page : List Elem),
      (detect_structure_of url page).item_tag
        = (if (findCards page).isEmpty then
             if (findLists page).isEmpty then
               if (findTables page).isEmpty then none else some "tr"
             else some "li"
           else some "div")
      ∧ (detect_structure_of url page).has_table = !(findTables page).isEmpty
      ∧ (detect_structure_of url page).has_list = !(findLists page).isEmpty
      ∧ (detect_structure_of url page).has_cards = !(findCards page).isEmpty := by
  intro url page
  unfold detect_structure_of
  cases hc : findCards page with
  | nil =>
    by_cases ht : (findTables page).isEmpty = true <;>
      by_cases hl : (findLists page).isEmpty = true <;>
        by_cases hp : (findPagination page).isEmpty = true <;>
          simp_all
  | cons c0 cs =>
    have hc' : (findCards page).isEmpty = false := by
      rw [hc]
      rfl
    by_cases ht : (findTables page).isEmpty = true <;>
      by_cases hl : (findLists page).isEmpty = true <;>
        by_cases hp : (findPagination page).isEmpty = true <;>
          simp_all

/-- Claim C2 counterexample: on a page holding both a `<table>` and a
`<ul class="annonce-list">`, `_detect_structure` sets both pattern flags
but returns `item_tag = "li"` — the list detector overwrites the table's
entry — instead of designating table rows as the claim states. -/
theorem claim_C2_counterexample :
    detect_structure (fun _ => some pageTableAndList) (some "http://aj.example/annonces")
      = some { url := "http://aj.example/annonces"
               has_list := true
               has_table := true
               has_cards := false
               container_class := none
               item_tag := some "li"
               pagination := false }
    ∧ (some "li" : Option String) ≠ some "tr" := by
  constructor
  · decide
  · decide

/-- `scrape`'s seed queue and state satisfy the loop invariant. -/
theorem crawlInv_init (links : String → List String) (base : String) (maxPages : Nat) :
    CrawlInv links base maxPages [(base, none, 0)]
      { visited := []
        found := []
        url_depth := [(base, 0)]
        url_hierarchy := [(base, (none, [], 0))]
        events := [] } := by
  refine ⟨List.nodup_nil, Nat.zero_le _, ?_, ?_, ?_, ?_, ?_, ?_, List.nodup_nil, ?_⟩
  · intro u hu
    cases hu
  · intro q hq
    rcases List.mem_cons.mp hq with he | hq
    · rw [he]
      exact Reachable.base
    · cases hq
  · refine Or.inr ?_
    simp
  · intro u hu
    cases hu
  · intro u hu
    cases hu
  · intro u
    simp
  · intro pre post u hsplit
    cases pre <;> simp at hsplit

/-- The loop only adds to `visited_urls`: the state's visited list on
entry is a suffix of the visited list on exit. -/
theorem scrapeLoop_visited_suffix (links : String → List String) (maxPages : Nat) :
    ∀ (qu : List (String × Option String × Nat)) (st : CrawlState),
      st.visited <:+ (scrapeLoop links maxPages qu st).visited := by
  intro qu st
  induction qu, st using scrapeLoop.induct links maxPages with
  | case1 st =>
    rw [scrapeLoop]
  | case2 current parent depth rest st h hmem ih =>
    have hstep : scrapeLoop links maxPages ((current, parent, depth) :: rest) st
        = scrapeLoop links maxPages rest st := by
      conv_lhs => rw [scrapeLoop]
      rw [dif_pos h, if_pos hmem]
    rw [hstep]
    exact ih
  | case3 current parent depth rest st h hmem nl hier0 hier1 ih =>
    have hstep : scrapeLoop links maxPages ((current, parent, depth) :: rest) st
        = scrapeLoop links maxPages
            (rest ++ nl.map (fun l => (l, some current, depth + 1)))
            { visited := current :: st.visited
              found := nl.foldl (fun f l => insertNew l f) (insertNew current st.found)
              url_depth := alSetdefault current depth st.url_depth
              url_hierarchy := nl.foldl
                (fun d l => alSetdefault l (some current, [], depth + 1) d) hier1
              events := st.events ++ CrawlEvent.fetch current :: nl.map CrawlEvent.enqueue } := by
      conv_lhs => rw [scrapeLoop]
      rw [dif_pos h, if_neg hmem]
      rfl
    rw [hstep]
    exact List.IsSuffix.trans (List.suffix_cons current st.visited) ih
  | case4 current parent depth rest st h =>
    rw [scrapeLoop, dif_neg h]

/-- Claim C1 (amended): `len(visited_urls) <= max_pages` always holds at
the end of a crawl, every visited URL is recorded in `found_urls`, the
returned sorted list is at least as long as `visited_urls`, and the cap
is reached exactly (`len(visited_urls) = max_pages`) whenever the
reachable link graph holds more than `max_pages` distinct URLs.  The
returned list itself (`sorted(list(self.found_urls))`) is NOT capped by
`max_pages`, because `found_urls` also records discovered-but-unvisited
links; the counterexample exhibits a run returning more than
`max_pages` URLs. -/
theorem claim_C1 (links : String → List String) (base : String) (maxPages : Nat) :
    (scrape links base maxPages).visited.length ≤ maxPages
    ∧ (∀ u ∈ (scrape links base maxPages).visited, u ∈ (scrape links base maxPages).found)
    ∧ (scrape links base maxPages).visited.length ≤ (scrapeResult links base maxPages).length
    ∧ (∀ R : List String, R.Nodup → (∀ u ∈ R, Reachable links base u) →
        maxPages < R.length →
        (scrape links base maxPages).visited.length = maxPages) := by
  obtain ⟨qu2, hinv, hexit⟩ := scrapeLoop_inv links base maxPages [(base, none, 0)]
    { visited := []
      found := []
      url_depth := [(base, 0)]
      url_hierarchy := [(base, (none, [], 0))]
      events := [] }
    (crawlInv_init links base maxPages)
  obtain ⟨i1, i2, i3, i4, i5, i6, i7, i8, i9, i10⟩ := hinv
  have hsc : scrape links base maxPages
      = scrapeLoop links maxPages [(base, none, 0)]
        { visited := []
          found := []
          url_depth := [(base, 0)]
          url_hierarchy := [(base, (none, [], 0))]
          events := [] } := rfl
  rw [← hsc] at i1 i2 i5 i6 i7 hexit
  have hfle : (scrape links base maxPages).visited.length
      ≤ (scrapeResult links base maxPages).length := by
    have hsubf : (scrape links base maxPages).visited
        ⊆ (scrape links base maxPages).found := fun u hu => i7 u hu
    have hv := (i1.subperm hsubf).length_le
    show _ ≤ (List.insertionSort _ (scrape links base maxPages).found).length
    rw [(List.perm_insertionSort (fun a b : String => a ≤ b)
      (scrape links base maxPages).found).length_eq]
    exact hv
  refine ⟨i2, i7, hfle, ?_⟩
  intro R hRnd hRreach hRlen
  rcases hexit with hq | hfull
  · subst hq
    have hbase : base ∈ (scrape links base maxPages).visited := by
      rcases i5 with h5 | h5
      · exact h5
      · simp at h5
    have hclo : ∀ u ∈ (scrape links base maxPages).visited, ∀ v ∈ links u,
        v ∈ (scrape links base maxPages).visited := by
      intro u hu v hv
      rcases i6 u hu v hv with h6 | h6
      · exact h6
      · simp at h6
    have hsub : ∀ u, Reachable links base u → u ∈ (scrape links base maxPages).visited := by
      intro u hr
      induction hr with
      | base => exact hbase
      | step h1 h2 ih => exact hclo _ ih _ h2
    have hRsub : R ⊆ (scrape links base maxPages).visited :=
      fun u hu => hsub u (hRreach u hu)
    have hle := (hRnd.subperm hRsub).length_le
    omega
  · omega

/-- Claim C1 witness: on the two-link site graph with `max_pages = 2`,
the reachable graph has three pages, so the crawl visits exactly two. -/
theorem claim_C1_witness :
    (scrape siteGraph "http://s" 2).visited.length ≤ 2
    ∧ (scrape siteGraph "http://s" 2).visited.length = 2 := by
  have h := claim_C1 siteGraph "http://s" 2
  refine ⟨h.1, h.2.2.2 ["http://s", "http://s/a", "http://s/b"] ?_ ?_ ?_⟩
  · decide
  · intro u hu
    rcases List.mem_cons.mp hu with he | hu
    · rw [he]
      exact Reachable.base
    rcases List.mem_cons.mp hu with he | hu
    · rw [he]
      refine Reachable.step Reachable.base ?_
      simp [siteGraph]
    rcases List.mem_cons.mp hu with he | hu
    · rw [he]
      refine Reachable.step Reachable.base ?_
      simp [siteGraph]
    · cases hu
  · decide

/-- Claim C1 counterexample: with `max_pages = 1` on the two-link site,
the returned list (`sorted(list(self.found_urls))`) holds three URLs —
the visited seed plus its two discovered-but-unvisited links — so the
claim's bound on the RETURNED list fails. -/
theorem claim_C1_counterexample :
    ¬ ((scrapeResult siteGraph "http://s" 1).length ≤ 1) := by
  have hfound : (scrape siteGraph "http://s" 1).found
      = ["http://s", "http://s/a", "http://s/b"] := by
    simp +decide [scrape, scrapeLoop, siteGraph, insertNew]
  have hlen : (scrapeResult siteGraph "http://s" 1).length = 3 := by
    show (List.insertionSort _ (scrape siteGraph "http://s" 1).found).length = 3
    rw [(List.perm_insertionSort (fun a b : String => a ≤ b)
      (scrape siteGraph "http://s" 1).found).length_eq, hfound]
    rfl
  omega

/-- Claim C8: within one crawl run no URL is fetched twice — the fetch
trace is duplicate-free and mirrors the visited set — after a URL's
fetch no later event fetches or enqueues it again, and the visited set
only grows (the state's visited list on loop entry is a suffix of the
final one). -/
theorem claim_C8 (links : String → List String) (base : String) (maxPages : Nat) :
    (((scrape links base maxPages).events.filterMap fetchUrlOf).Nodup
      ∧ (∀ u, CrawlEvent.fetch u ∈ (scrape links base maxPages).events
          ↔ u ∈ (scrape links base maxPages).visited))
    ∧ (∀ (pre post : List CrawlEvent) (u : String),
        (scrape links base maxPages).events = pre ++ CrawlEvent.fetch u :: post →
        CrawlEvent.fetch u ∉ post ∧ CrawlEvent.enqueue u ∉ post)
    ∧ (∀ (qu : List (String × Option String × Nat)) (st : CrawlState),
        st.visited <:+ (scrapeLoop links maxPages qu st).visited) := by
  obtain ⟨qu2, hinv, -⟩ := scrapeLoop_inv links base maxPages [(base, none, 0)]
    { visited := []
      found := []
      url_depth := [(base, 0)]
      url_hierarchy := [(base, (none, [], 0))]
      events := [] }
    (crawlInv_init links base maxPages)
  obtain ⟨-, -, -, -, -, -, -, i8, i9, i10⟩ := hinv
  exact ⟨⟨i9, i8⟩, i10, scrapeLoop_visited_suffix links maxPages⟩

/-- Claim C8 witness: on the one-link site with `max_pages = 2` the trace
is fetch seed, enqueue child, fetch child; after the child's fetch
nothing fetches or enqueues it again. -/
theorem claim_C8_witness :
    CrawlEvent.fetch "http://s/a" ∉ ([] : List CrawlEvent)
    ∧ CrawlEvent.enqueue "http://s/a" ∉ ([] : List CrawlEvent) := by
  refine (claim_C8 lineGraph "http://s" 2).2.1
    [CrawlEvent.fetch "http://s", CrawlEvent.enqueue "http://s/a"] []
    "http://s/a" ?_
  simp +decide [scrape, scrapeLoop, lineGraph, insertNew, alSetdefault, alAddChild]

end Scraper
